import Mathlib

/-!
Verification of the performance aggregation and ranking engine of the
math-grellic education-platform backend.

The engine is embedded shallowly: JavaScript numbers become `ℚ`,
timestamps (the result of `Date.prototype.valueOf`) become `Int`,
nullable values become `Option`, and the stable `Array.prototype.sort`
with a comparator `cmp` becomes `List.insertionSort r` where
`r a b ↔ cmp a b ≤ 0` (insertion sort is the stable sort, and a stable
sort is uniquely determined by a total preorder, so this is faithful to
the ECMAScript stable-sort requirement).

Code mapped here:
  PerformanceService.generateOverallExamRankings,
  PerformanceService.generateOverallActivityRankings,
  the dedup/count part of generateOverallExamDetailedPerformance,
  ActivityService.generateActivityRankings,
  ActivityService.generateActivityWithCompletions.
-/

set_option maxRecDepth 8192

namespace MathGrellic

open List

/-! ## Definitions -/

/-- JS coercion of a possibly-null number in arithmetic position:
`null` coerces to `0` (for example in `comB.score - comA.score` and
`total + com.score`), and the idiom `com.score || 0` yields the same
function on number-or-null values. -/
def numOf : Option ℚ → ℚ
  | none => 0
  | some q => q

/-- JS `x || null` on a number-or-null value: `null` and `0` are falsy,
so both become `null`. -/
def jsOrNull : Option ℚ → Option ℚ
  | none => none
  | some q => if q = 0 then none else some q

/-- Model of the recurring JS idiom
`array.filter((x, index, array) => array.findIndex(item => key(item) === key(x)) === index)`:
keep only the first occurrence of every key, preserving order. -/
def dedupByKey {α : Type} {β : Type} [DecidableEq β] (key : α → β) : List α → List α
  | [] => []
  | x :: xs => x :: (dedupByKey key xs).filter (fun y => key y != key x)

/-- Model of `Promise.all(list.map(f))` for fallible `f`: the first
rejection rejects the whole batch, otherwise the results are kept in
order. -/
def mapExcept {α β ε : Type} (f : α → Except ε β) : List α → Except ε (List β)
  | [] => .ok []
  | x :: xs =>
    match f x with
    | .error e => .error e
    | .ok y =>
      match mapExcept f xs with
      | .error e => .error e
      | .ok ys => .ok (y :: ys)

/-- Relation of the JS comparator `(a, b) => k(a) - k(b)` (ascending by
key `k`): `a` may be placed before `b` iff the comparator is `≤ 0`. -/
def byKeyAsc {α : Type} {β : Type} [LinearOrder β] (k : α → β) : α → α → Prop :=
  fun a b => k a ≤ k b

/-- Relation of the JS comparator `(a, b) => k(b) - k(a)` (descending by
key `k`). -/
def byKeyDesc {α : Type} {β : Type} [LinearOrder β] (k : α → β) : α → α → Prop :=
  fun a b => k b ≤ k a

instance {α β : Type} [LinearOrder β] (k : α → β) : DecidableRel (byKeyAsc k) :=
  fun a b => inferInstanceAs (Decidable (k a ≤ k b))

instance {α β : Type} [LinearOrder β] (k : α → β) : DecidableRel (byKeyDesc k) :=
  fun a b => inferInstanceAs (Decidable (k b ≤ k a))

instance {α β : Type} [LinearOrder β] (k : α → β) : IsTotal α (byKeyAsc k) :=
  ⟨fun a b => le_total (k a) (k b)⟩

instance {α β : Type} [LinearOrder β] (k : α → β) : IsTotal α (byKeyDesc k) :=
  ⟨fun a b => (le_total (k b) (k a)).imp id id⟩

instance {α β : Type} [LinearOrder β] (k : α → β) : IsTrans α (byKeyAsc k) :=
  ⟨fun _ _ _ h h' => le_trans h h'⟩

instance {α β : Type} [LinearOrder β] (k : α → β) : IsTrans α (byKeyDesc k) :=
  ⟨fun _ _ _ h h' => le_trans h' h⟩

instance {α β : Type} [LinearOrder β] (k : α → β) : IsRefl α (byKeyAsc k) :=
  ⟨fun _ => le_refl _⟩

instance {α β : Type} [LinearOrder β] (k : α → β) : IsRefl α (byKeyDesc k) :=
  ⟨fun _ => le_refl _⟩

/-- Enum `ActivityCategoryType` from activity.enum. -/
inductive ActivityCategoryType : Type
  | Point
  | Time
  | Stage
  deriving DecidableEq, Repr

/-- The `exam` relation embedded in an exam completion
(`ec.exam.id`, `ec.exam.passingPoints`). -/
structure ExamRef : Type where
  id : Nat
  passingPoints : ℚ
  deriving DecidableEq, Repr

/-- Entity `ExamCompletion` as used by the performance service. -/
structure ExamCompletion : Type where
  exam : ExamRef
  score : ℚ
  submittedAt : Int
  deriving DecidableEq, Repr

/-- The `activity` relation embedded under an activity category of a
completion (`com.activityCategory.activity`). -/
structure ActivityRef : Type where
  id : Nat
  gameType : ActivityCategoryType
  deriving DecidableEq, Repr

/-- The `activityCategory` relation embedded in an activity completion. -/
structure ActivityCategoryRef : Type where
  id : Nat
  level : Nat
  activity : ActivityRef
  deriving DecidableEq, Repr

/-- Entity `ActivityCategoryCompletion`. The `score` column is nullable. -/
structure ActivityCompletion : Type where
  activityCategory : ActivityCategoryRef
  score : Option ℚ
  timeCompletedSeconds : ℚ
  submittedAt : Int
  deriving DecidableEq, Repr

/-- Entity `ActivityCategory` as loaded on an activity
(`activity.categories`). -/
structure ActivityCategory : Type where
  id : Nat
  level : Nat
  updatedAt : Int
  deriving DecidableEq, Repr

/-- Entity `Activity` with its game type (`activity.game.type`) and its
categories relation. -/
structure Activity : Type where
  id : Nat
  gameType : ActivityCategoryType
  categories : List ActivityCategory
  deriving DecidableEq, Repr

/-- Entity `StudentUserAccount` with the completion relations loaded.
The completion lists are the rows the repository returns for the
student, in database order. -/
structure Student : Type where
  id : Nat
  firstName : String
  lastName : String
  middleName : String
  examCompletions : List ExamCompletion
  activityCompletions : List ActivityCompletion
  deriving DecidableEq, Repr

/-- Modelled from the spec: the helper `generateFullName` lives in
`common/helpers/string.helper`, which is not part of the provided
sources. The spec describes the comparable string as first + last with
the middle name included, so the three name parts are joined into one
string with the middle name between first and last. -/
def generateFullName (firstName lastName middleName : String) : String :=
  firstName ++ " " ++ middleName ++ " " ++ lastName

/-- Full name of a student, as passed to `localeCompare` by the ranking
code. The locale order is modelled by the lexicographic string order. -/
def studentFullName (s : Student) : String :=
  generateFullName s.firstName s.lastName s.middleName

/-! ## Competition ranking (generateOverallExamRankings and
generateOverallActivityRankings in the performance service)

Both functions keep two mutable variables `previousScore` (initially
`null`) and `currentRank` (initially `null`) and map over the sorted
scored students with
`if (score !== previousScore) { currentRank = index + 1 }`.
`competitionRank` passes that mutable state explicitly and pairs every
element with the rank it receives. -/

def competitionRank {α : Type} (getScore : α → Option ℚ) :
    Option ℚ → Option Nat → Nat → List α → List (α × Option Nat)
  | _, _, _, [] => []
  | prev, cur, idx, e :: rest =>
    let r := if getScore e = prev then cur else some (idx + 1)
    (e, r) :: competitionRank getScore (getScore e) r (idx + 1) rest

/-- Sequential ranking: `.map((data, index) => ({ ...data, rank: index + 1 }))`. -/
def rankSequential {α : Type} : Nat → List α → List (α × Nat)
  | _, [] => []
  | idx, e :: rest => (e, idx + 1) :: rankSequential (idx + 1) rest

/-- Lines 87-95 of the performance service: sort the exam completions by
`submittedAt` descending (in place) and keep the first completion per
exam id, i.e. the latest submission per exam. -/
def filteredExamCompletions (s : Student) : List ExamCompletion :=
  dedupByKey (fun c => c.exam.id)
    (insertionSort (byKeyDesc (fun c : ExamCompletion => c.submittedAt)) s.examCompletions)

/-- A student together with the derived overall exam score and rank
(`{ ...student, overallExamScore, overallExamRank }`). -/
structure ExamRankedStudent : Type where
  student : Student
  overallExamScore : Option ℚ
  overallExamRank : Option Nat
  deriving DecidableEq, Repr

/-- Per-student transformation of generateOverallExamRankings: dedup the
completions; a student with no completion gets a `null` score, otherwise
the sum of the deduplicated scores. -/
def transformExamStudent (s : Student) : ExamRankedStudent :=
  let fcs := filteredExamCompletions s
  if fcs.isEmpty then
    { student := s, overallExamScore := none, overallExamRank := none }
  else
    { student := s
      overallExamScore := some (fcs.foldl (fun total c => c.score + total) 0)
      overallExamRank := none }

/-- generateOverallExamRankings: returns
`(rankedStudents, unrankedStudents)`. Scored students are sorted by
score descending and ranked under the competition policy; unscored
students are sorted by full name ascending and get a `null` rank. -/
def generateOverallExamRankings (students : List Student) :
    List ExamRankedStudent × List ExamRankedStudent :=
  let transformed := students.map transformExamStudent
  let rankedStudents :=
    (competitionRank (fun e => e.overallExamScore) none none 0
        (insertionSort (byKeyDesc (fun e : ExamRankedStudent => numOf e.overallExamScore))
          (transformed.filter (fun e => e.overallExamScore.isSome)))).map
      (fun p => { p.1 with overallExamRank := p.2 })
  let unrankedStudents :=
    (insertionSort (byKeyAsc (fun e : ExamRankedStudent => studentFullName e.student))
        (transformed.filter (fun e => e.overallExamScore.isNone))).map
      (fun e => { e with overallExamRank := none })
  (rankedStudents, unrankedStudents)

/-- Lines 278-281 of the performance service: the detailed performance
deduplicates `student.examCompletions` per exam id with a bare
`findIndex` filter and no preceding sort, so it keeps the first
completion per exam id in input array order. -/
def detailedExamCompletions (s : Student) : List ExamCompletion :=
  dedupByKey (fun c => c.exam.id) s.examCompletions

/-- Count `examsPassedCount` of the detailed exam performance. -/
def examsPassedCount (s : Student) : Nat :=
  ((detailedExamCompletions s).filter (fun ec => ec.exam.passingPoints ≤ ec.score)).length

/-- Count `examsFailedCount` of the detailed exam performance. -/
def examsFailedCount (s : Student) : Nat :=
  ((detailedExamCompletions s).filter (fun ec => ec.score < ec.exam.passingPoints)).length

/-- Count `examsCompletedCount` of the detailed exam performance. -/
def examsCompletedCount (s : Student) : Nat :=
  (detailedExamCompletions s).length

/-- Lines 153-163 of the performance service: sort the activity
completions by `submittedAt` descending (in place) and keep the first
completion per activity category id, i.e. the latest submission per
category. -/
def filteredActivityCompletions (s : Student) : List ActivityCompletion :=
  dedupByKey (fun c => c.activityCategory.id)
    (insertionSort (byKeyDesc (fun c : ActivityCompletion => c.submittedAt)) s.activityCompletions)

/-- The deduplicated completions whose activity game type is not `Time`. -/
def pointLevelActivityCompletions (fcs : List ActivityCompletion) : List ActivityCompletion :=
  fcs.filter (fun com => com.activityCategory.activity.gameType != ActivityCategoryType.Time)

/-- Value `totalPointLevelScore`: sum of `(com.score || 0)` over the non-time
completions. -/
def totalPointLevelScore (fcs : List ActivityCompletion) : ℚ :=
  (pointLevelActivityCompletions fcs).foldl (fun total com => numOf com.score + total) 0

/-- The deduplicated completions whose activity game type is `Time`. -/
def timeActivityCompletions (fcs : List ActivityCompletion) : List ActivityCompletion :=
  fcs.filter (fun com => com.activityCategory.activity.gameType == ActivityCategoryType.Time)

/-- Value `timeActivityIds`: the distinct activity ids of the time completions,
first occurrence kept (`.filter((id, index, array) => array.indexOf(id) === index)`). -/
def timeActivityIds (timeComs : List ActivityCompletion) : List Nat :=
  dedupByKey (fun n => n) (timeComs.map (fun com => com.activityCategory.activity.id))

/-- Per time activity: restrict to its completions, deduplicate by
category level, and if exactly 3 levels remain return the average of
their `(com.score || 0)` values, otherwise `null`. Note that the code
averages the `score` field here. -/
def timeActivityAvg (timeComs : List ActivityCompletion) (activityId : Nat) : Option ℚ :=
  let targetCompletions := timeComs.filter (fun com => com.activityCategory.activity.id == activityId)
  let filteredTargetCompletions :=
    dedupByKey (fun com => com.activityCategory.level) targetCompletions
  if filteredTargetCompletions.length = 3 then
    some ((filteredTargetCompletions.foldl (fun total com => numOf com.score + total) 0) / 3)
  else
    none

/-- Value `totalTimeScore`: map every time activity id to its average, drop the
falsy values (`null` and `0`, by `.filter((avgTime) => !!avgTime)`), and
sum the reciprocals. -/
def totalTimeScore (timeComs : List ActivityCompletion) : ℚ :=
  ((((timeActivityIds timeComs).map (timeActivityAvg timeComs)).filterMap id).filter
      (fun avgTime => avgTime ≠ 0)).foldl
    (fun total avgTime => total + 1 / avgTime) 0

/-- Per-activity contribution to `totalTimeScore`, read off the code:
the reciprocal of the per-activity average when that average exists and
is truthy (non-zero), otherwise 0. The average is taken over the
`score` fields of the deduplicated completions. -/
def timeContribution (timeComs : List ActivityCompletion) (activityId : Nat) : ℚ :=
  match timeActivityAvg timeComs activityId with
  | some avg => if avg = 0 then 0 else 1 / avg
  | none => 0

/-- Value `overallActivityScore` of one student: `null` when the deduplicated
completion list is empty, otherwise point/level total plus time total. -/
def overallActivityScoreOf (s : Student) : Option ℚ :=
  let fcs := filteredActivityCompletions s
  if fcs.isEmpty then none
  else some (totalPointLevelScore fcs + totalTimeScore (timeActivityCompletions fcs))

/-- A student together with the derived overall activity score and rank. -/
structure ActivityRankedStudent : Type where
  student : Student
  overallActivityScore : Option ℚ
  overallActivityRank : Option Nat
  deriving DecidableEq, Repr

/-- Per-student transformation of generateOverallActivityRankings. -/
def transformActivityStudent (s : Student) : ActivityRankedStudent :=
  { student := s
    overallActivityScore := overallActivityScoreOf s
    overallActivityRank := none }

/-- generateOverallActivityRankings: returns
`(rankedStudents, unrankedStudents)` under the competition policy, with
unscored students sorted by full name ascending. -/
def generateOverallActivityRankings (students : List Student) :
    List ActivityRankedStudent × List ActivityRankedStudent :=
  let transformed := students.map transformActivityStudent
  let rankedStudents :=
    (competitionRank (fun e => e.overallActivityScore) none none 0
        (insertionSort (byKeyDesc (fun e : ActivityRankedStudent => numOf e.overallActivityScore))
          (transformed.filter (fun e => e.overallActivityScore.isSome)))).map
      (fun p => { p.1 with overallActivityRank := p.2 })
  let unrankedStudents :=
    (insertionSort (byKeyAsc (fun e : ActivityRankedStudent => studentFullName e.student))
        (transformed.filter (fun e => e.overallActivityScore.isNone))).map
      (fun e => { e with overallActivityRank := none })
  (rankedStudents, unrankedStudents)

/-- Lines 54-59 of the activity service: sort `activity.categories` by
`updatedAt` descending (in place) and keep the first category per level. -/
def filteredCategoriesOf (a : Activity) : List ActivityCategory :=
  dedupByKey (fun cat => cat.level)
    (insertionSort (byKeyDesc (fun cat : ActivityCategory => cat.updatedAt)) a.categories)

/-- The ids of the eligible (deduplicated) categories. -/
def categoryIdsOf (a : Activity) : List Nat :=
  (filteredCategoriesOf a).map (fun cat => cat.id)

/-- The repository query
`find({ where: { activityCategory: { id: In(categoryIds) }, student: { id: studentId } } })`,
modelled as the rows of the student restricted to the eligible
categories. -/
def targetCompletionsOf (a : Activity) (s : Student) : List ActivityCompletion :=
  s.activityCompletions.filter (fun com => (categoryIdsOf a).contains com.activityCategory.id)

/-- Point game type, per category: the completions of that category
sorted by time ascending and then (stably) by score descending, so the
head is the best completion. -/
def pointCategoryList (tcs : List ActivityCompletion) (cat : ActivityCategory) :
    List ActivityCompletion :=
  insertionSort (byKeyDesc (fun com : ActivityCompletion => numOf com.score))
    (insertionSort (byKeyAsc (fun com : ActivityCompletion => com.timeCompletedSeconds))
      (tcs.filter (fun com => com.activityCategory.id == cat.id)))

/-- Time game type, per category: the completions of that category sorted
by time ascending only. -/
def timeCategoryList (tcs : List ActivityCompletion) (cat : ActivityCategory) :
    List ActivityCompletion :=
  insertionSort (byKeyAsc (fun com : ActivityCompletion => com.timeCompletedSeconds))
    (tcs.filter (fun com => com.activityCategory.id == cat.id))

/-- The canonical completions of a point activity: the per-category reduce
that pushes `list[0]` when the list is non-empty. -/
def pointCompletionsOf (a : Activity) (tcs : List ActivityCompletion) :
    List ActivityCompletion :=
  (filteredCategoriesOf a).filterMap (fun cat => (pointCategoryList tcs cat).head?)

/-- The canonical completions of a time activity. -/
def timeCompletionsOf (a : Activity) (tcs : List ActivityCompletion) :
    List ActivityCompletion :=
  (filteredCategoriesOf a).filterMap (fun cat => (timeCategoryList tcs cat).head?)

/-- One entry of the `studentData` array of generateActivityRankings. -/
structure StudentData : Type where
  studentId : Nat
  score : Option ℚ
  completions : List ActivityCompletion
  deriving DecidableEq, Repr

/-- The `Point` case of the per-student closure of
generateActivityRankings (lines 74-100). -/
def pointStudentData (a : Activity) (s : Student) : StudentData :=
  let completions := pointCompletionsOf a (targetCompletionsOf a s)
  { studentId := s.id
    score :=
      if completions.isEmpty then none
      else some (completions.foldl (fun total com => total + numOf com.score) 0)
    completions }

/-- The `Time` case of the per-student closure (lines 101-128): average
of the canonical times. -/
def timeStudentData (a : Activity) (s : Student) : StudentData :=
  let completions := timeCompletionsOf a (targetCompletionsOf a s)
  { studentId := s.id
    score :=
      if completions.isEmpty then none
      else some ((completions.foldl (fun total com => total + com.timeCompletedSeconds) 0) /
        completions.length)
    completions }

/-- The `Stage` case of the per-student closure (lines 129-147). The
source evaluates `targetCategory.id` inside a filter callback; when the
category list is empty and the completion list is non-empty this is a JS
`TypeError` on `null`, modelled as an `error` result.
`Array.prototype.filter` never invokes its callback on an empty array,
so an empty completion list is safe. -/
def stageStudentData (a : Activity) (s : Student) : Except String StudentData :=
  match targetCompletionsOf a s, (filteredCategoriesOf a).head? with
  | [], _ =>
    .ok { studentId := s.id, score := none, completions := [] }
  | _ :: _, none =>
    .error "TypeError: cannot read property id of null"
  | coms@(_ :: _), some targetCategory =>
    let completions :=
      insertionSort (byKeyDesc (fun com : ActivityCompletion => numOf com.score))
        (insertionSort (byKeyAsc (fun com : ActivityCompletion => com.timeCompletedSeconds))
          (coms.filter (fun com => com.activityCategory.id == targetCategory.id)))
    .ok { studentId := s.id
          score := completions.head?.bind (fun com => com.score)
          completions }

/-- The per-student closure of generateActivityRankings (lines 64-148),
dispatched on the game type. -/
def studentActivityData (a : Activity) (s : Student) : Except String StudentData :=
  match a.gameType with
  | ActivityCategoryType.Point => .ok (pointStudentData a s)
  | ActivityCategoryType.Time => .ok (timeStudentData a s)
  | ActivityCategoryType.Stage => stageStudentData a s

/-- One entry of the list generateActivityRankings returns. -/
structure ActivityRankEntry : Type where
  studentId : Nat
  score : Option ℚ
  completions : List ActivityCompletion
  rank : Option Nat
  deriving DecidableEq, Repr

/-- Spread `{ ...data, rank: index + 1 }`. -/
def mkRanked (p : StudentData × Nat) : ActivityRankEntry :=
  { studentId := p.1.studentId, score := p.1.score, completions := p.1.completions
    rank := some p.2 }

/-- Spread `{ ...data, rank: null }`. -/
def mkUnranked (d : StudentData) : ActivityRankEntry :=
  { studentId := d.studentId, score := d.score, completions := d.completions, rank := none }

/-- The `Time` ranking branch of generateActivityRankings (lines
163-173): sort ascending, exclude students with fewer than 3 canonical
completions from the ranked part; the unranked part keeps the
`studentData` order. -/
def rankBranchTime (studentData : List StudentData) : List ActivityRankEntry :=
  (rankSequential 0
      (insertionSort (byKeyAsc (fun d : StudentData => numOf d.score))
        (studentData.filter
          (fun d => d.score.isSome && decide (3 ≤ d.completions.length))))).map mkRanked ++
    (studentData.filter
        (fun d => d.score.isNone || decide (d.completions.length < 3))).map mkUnranked

/-- The `Point`/`Stage` ranking branch of generateActivityRankings
(lines 152-162 and 174-185, textually identical in the source): sort by
score descending, rank sequentially; unranked students keep the
`studentData` order. -/
def rankBranchDesc (studentData : List StudentData) : List ActivityRankEntry :=
  (rankSequential 0
      (insertionSort (byKeyDesc (fun d : StudentData => numOf d.score))
        (studentData.filter (fun d => d.score.isSome)))).map mkRanked ++
    (studentData.filter (fun d => d.score.isNone)).map mkUnranked

/-- The ranking phase of generateActivityRankings (lines 152-185):
sequential policy, dispatched on the game type. -/
def rankActivityStudents (a : Activity) (studentData : List StudentData) :
    List ActivityRankEntry :=
  match a.gameType with
  | ActivityCategoryType.Time => rankBranchTime studentData
  | _ => rankBranchDesc studentData

/-- generateActivityRankings: per-student data via `Promise.all`, then
the ranking phase. -/
def generateActivityRankings (a : Activity) (students : List Student) :
    Except String (List ActivityRankEntry) :=
  (mapExcept (studentActivityData a) students).map (rankActivityStudents a)

/-- A category of the result, with its `completions` field. -/
structure CategoryWithCompletion : Type where
  category : ActivityCategory
  completions : Option ActivityCompletion
  deriving DecidableEq, Repr

/-- Truthiness of `cat.completions.length` in the source: when
`completions` is the single best completion it is a plain object with no
`length` property, so the expression is `undefined` (falsy); when it is
`[]` the expression is `0` (also falsy). -/
def completionsLengthTruthy : Option ActivityCompletion → Bool
  | some _ => false
  | none => false

/-- JS `completions[0]` where `completions` is a single object or `[]`:
indexing a plain object with `0` yields `undefined`, and `[][0]` is also
`undefined`. -/
def completionsIndexZero : Option ActivityCompletion → Option ActivityCompletion
  | some _ => none
  | none => none

/-- The record generateActivityWithCompletions returns (spread activity
fields plus the transformed categories and the score). -/
structure ActivityWithCompletions : Type where
  categories : List CategoryWithCompletion
  score : Option ℚ
  deriving DecidableEq, Repr

/-- generateActivityWithCompletions (lines 188-304 of the activity
service). The branches guarded by `catWithCompletions.length` would
dereference `cat.completions[0].score` on a non-array value; they are
modelled as errors, and are unreachable because the length test is never
truthy. The `Stage` branch has the same null-category hazard as
generateActivityRankings. -/
def generateActivityWithCompletions (a : Activity) (s : Student) :
    Except String ActivityWithCompletions :=
  let tcs := targetCompletionsOf a s
  let fcs := filteredCategoriesOf a
  match a.gameType with
  | ActivityCategoryType.Point =>
    let categories :=
      fcs.map (fun cat =>
        { category := cat, completions := (pointCategoryList tcs cat).head? :
          CategoryWithCompletion })
    let catWithCompletions :=
      categories.filter (fun cat => completionsLengthTruthy cat.completions)
    if catWithCompletions.isEmpty then .ok { categories, score := none }
    else .error "TypeError: cannot read property score of undefined"
  | ActivityCategoryType.Time =>
    let categories :=
      fcs.map (fun cat =>
        { category := cat, completions := (timeCategoryList tcs cat).head? :
          CategoryWithCompletion })
    let catWithCompletions :=
      categories.filter (fun cat => completionsLengthTruthy cat.completions)
    if catWithCompletions.isEmpty then .ok { categories, score := none }
    else .error "TypeError: cannot read property timeCompletedSeconds of undefined"
  | ActivityCategoryType.Stage =>
    match tcs, fcs.head? with
    | [], none =>
      -- targetCategory is null but the filter runs over an empty array;
      -- categories = [] and the optional chain yields null
      .ok { categories := [], score := none }
    | _ :: _, none =>
      .error "TypeError: cannot read property id of null"
    | coms, some targetCategory =>
      let completions :=
        insertionSort (byKeyDesc (fun com : ActivityCompletion => numOf com.score))
          (insertionSort (byKeyAsc (fun com : ActivityCompletion => com.timeCompletedSeconds))
            (coms.filter (fun com => com.activityCategory.id == targetCategory.id)))
      let categories :=
        [{ category := targetCategory, completions := completions.head? :
           CategoryWithCompletion }]
      let catWithCompletions :=
        insertionSort (byKeyDesc (fun cat : CategoryWithCompletion => cat.category.updatedAt))
          (categories.filter (fun cat => completionsLengthTruthy cat.completions))
      -- score = catWithCompletions[0]?.completions[0]?.score || null
      .ok { categories
            score := jsOrNull
              ((catWithCompletions.head?.bind
                  (fun cat => completionsIndexZero cat.completions)).bind
                (fun com => com.score)) }

/-- Content of `student.examCompletions` after
generateOverallExamRankings (sorted at line 88 of the performance
service). -/
def examCompletionsAfterOverallExamRankings (s : Student) : List ExamCompletion :=
  insertionSort (byKeyDesc (fun c : ExamCompletion => c.submittedAt)) s.examCompletions

/-- Content of `student.activityCompletions` after
generateOverallActivityRankings (sorted at line 154), and likewise after
generateOverallActivityDetailedPerformance (sorted at line 328 with the
same comparator). -/
def activityCompletionsAfterOverallActivityRankings (s : Student) : List ActivityCompletion :=
  insertionSort (byKeyDesc (fun c : ActivityCompletion => c.submittedAt)) s.activityCompletions

/-- Content of `activity.categories` after generateActivityRankings
(sorted at line 55 of the activity service) or
generateActivityWithCompletions (sorted at line 191). -/
def categoriesAfterActivityRankings (a : Activity) : List ActivityCategory :=
  insertionSort (byKeyDesc (fun cat : ActivityCategory => cat.updatedAt)) a.categories

/-- Example roster for the competition tie-sharing example: three
students whose overall exam scores come out as 90, 90 and 80. -/
def c1Students : List Student :=
  [{ id := 1, firstName := "Ada", lastName := "Cruz", middleName := "Q"
     examCompletions := [{ exam := { id := 1, passingPoints := 50 }, score := 90, submittedAt := 11 }]
     activityCompletions := [] },
   { id := 2, firstName := "Bea", lastName := "Cruz", middleName := "Q"
     examCompletions := [{ exam := { id := 1, passingPoints := 50 }, score := 90, submittedAt := 12 }]
     activityCompletions := [] },
   { id := 3, firstName := "Cid", lastName := "Cruz", middleName := "Q"
     examCompletions := [{ exam := { id := 1, passingPoints := 50 }, score := 80, submittedAt := 13 }]
     activityCompletions := [] }]

/-- Activity for the sequential-policy example: a point activity with one
category. -/
def c2Activity : Activity :=
  { id := 2, gameType := ActivityCategoryType.Point
    categories := [{ id := 21, level := 1, updatedAt := 5 }] }

/-- Category reference of the single category of `c2Activity`. -/
def c2CategoryRef : ActivityCategoryRef :=
  { id := 21, level := 1, activity := { id := 2, gameType := ActivityCategoryType.Point } }

/-- A completion of the single category of `c2Activity`. -/
def c2Completion (q : ℚ) : ActivityCompletion :=
  { activityCategory := c2CategoryRef
    score := some q, timeCompletedSeconds := 3, submittedAt := 7 }

/-- A student of the sequential-policy example with one completion. -/
def c2Student (i : Nat) (q : ℚ) : Student :=
  { id := i, firstName := "F", lastName := "L", middleName := "M"
    examCompletions := []
    activityCompletions := [c2Completion q] }

/-- Roster with activity scores 90, 90, 80 in input order. -/
def c2Students : List Student := [c2Student 1 90, c2Student 2 90, c2Student 3 80]

/-- Expected output entries of the C2 example. -/
def c2Entries : List ActivityRankEntry :=
  [{ studentId := 1, score := some 90, completions := [c2Completion 90], rank := some 1 },
   { studentId := 2, score := some 90, completions := [c2Completion 90], rank := some 2 },
   { studentId := 3, score := some 80, completions := [c2Completion 80], rank := some 3 }]

/-- Point activity with one category, no student has completions. -/
def c3Activity : Activity :=
  { id := 3, gameType := ActivityCategoryType.Point
    categories := [{ id := 31, level := 1, updatedAt := 4 }] }

/-- Student named Ben Cruz, first in the roster. -/
def c3Ben : Student :=
  { id := 1, firstName := "Ben", lastName := "Cruz", middleName := "X"
    examCompletions := [], activityCompletions := [] }

/-- Student named Ana Cruz, second in the roster. -/
def c3Ana : Student :=
  { id := 2, firstName := "Ana", lastName := "Cruz", middleName := "X"
    examCompletions := [], activityCompletions := [] }

/-- Time activity with three categories (levels 1, 2, 3). -/
def c6Activity : Activity :=
  { id := 6, gameType := ActivityCategoryType.Time
    categories := [{ id := 61, level := 1, updatedAt := 3 },
                   { id := 62, level := 2, updatedAt := 2 },
                   { id := 63, level := 3, updatedAt := 1 }] }

/-- Category reference of a category of `c6Activity`. -/
def c6CatRef (cid lvl : Nat) : ActivityCategoryRef :=
  { id := cid, level := lvl, activity := { id := 6, gameType := ActivityCategoryType.Time } }

/-- Completion of level 1 of `c6Activity` in 10 seconds. -/
def c6Com1 : ActivityCompletion :=
  { activityCategory := c6CatRef 61 1
    score := some 5, timeCompletedSeconds := 10, submittedAt := 1 }

/-- Completion of level 2 of `c6Activity` in 20 seconds. -/
def c6Com2 : ActivityCompletion :=
  { activityCategory := c6CatRef 62 2
    score := some 5, timeCompletedSeconds := 20, submittedAt := 2 }

/-- Student who completed only 2 of the 3 levels of `c6Activity`. -/
def c6Student : Student :=
  { id := 4, firstName := "A", lastName := "B", middleName := "C"
    examCompletions := []
    activityCompletions := [c6Com1, c6Com2] }

/-- The output entry for `c6Student`: numeric average 15, but no rank. -/
def c6Entry : ActivityRankEntry :=
  { studentId := 4, score := some 15, completions := [c6Com1, c6Com2], rank := none }

/-- Stage activity with an empty category list. -/
def c8Activity : Activity :=
  { id := 8, gameType := ActivityCategoryType.Stage, categories := [] }

/-- Point activity with three categories, levels 1, 2 and 3. -/
def c4Activity : Activity :=
  { id := 40, gameType := ActivityCategoryType.Point
    categories := [{ id := 11, level := 1, updatedAt := 100 },
                   { id := 12, level := 2, updatedAt := 90 },
                   { id := 13, level := 3, updatedAt := 80 }] }

/-- Category reference of a category of `c4Activity`. -/
def c4CatRef (cid lvl : Nat) : ActivityCategoryRef :=
  { id := cid, level := lvl, activity := { id := 40, gameType := ActivityCategoryType.Point } }

/-- Slower but better attempt at level 1: score 80 in 9 seconds. -/
def c4Com80 : ActivityCompletion :=
  { activityCategory := c4CatRef 11 1
    score := some 80, timeCompletedSeconds := 9, submittedAt := 2 }

/-- Faster but worse attempt at level 1: score 70 in 5 seconds. -/
def c4Com70 : ActivityCompletion :=
  { activityCategory := c4CatRef 11 1
    score := some 70, timeCompletedSeconds := 5, submittedAt := 1 }

/-- The only attempt at level 3: score 60. -/
def c4Com60 : ActivityCompletion :=
  { activityCategory := c4CatRef 13 3
    score := some 60, timeCompletedSeconds := 7, submittedAt := 3 }

/-- Student with attempts at levels 1 and 3 and none at level 2. -/
def c4Student : Student :=
  { id := 9, firstName := "A", lastName := "B", middleName := "C"
    examCompletions := []
    activityCompletions := [c4Com70, c4Com80, c4Com60] }

/-- Category reference of a category of the time activity of the C5
examples. -/
def c5CatRef (cid lvl : Nat) : ActivityCategoryRef :=
  { id := cid, level := lvl, activity := { id := 7, gameType := ActivityCategoryType.Time } }

/-- A completion of the C5 time activity. -/
def c5Com (cid lvl : Nat) (sc : ℚ) (t : ℚ) (sub : Int) : ActivityCompletion :=
  { activityCategory := c5CatRef cid lvl
    score := some sc, timeCompletedSeconds := t, submittedAt := sub }

/-- Student with all three tiers of one time activity completed, tier
times 10, 20, 30 seconds, but score fields all 1. -/
def c5Student : Student :=
  { id := 3, firstName := "A", lastName := "B", middleName := "C"
    examCompletions := []
    activityCompletions := [c5Com 71 1 1 10 1, c5Com 72 2 1 20 2, c5Com 73 3 1 30 3] }

/-- Student whose score fields carry the tier times 10, 20, 30. -/
def c5ScoreAsTime : Student :=
  { id := 3, firstName := "A", lastName := "B", middleName := "C"
    examCompletions := []
    activityCompletions := [c5Com 71 1 10 10 1, c5Com 72 2 20 20 2, c5Com 73 3 30 30 3] }

/-- Student with only two of the three tiers completed. -/
def c5TwoTiers : Student :=
  { id := 3, firstName := "A", lastName := "B", middleName := "C"
    examCompletions := []
    activityCompletions := [c5Com 71 1 10 10 1, c5Com 72 2 20 20 2] }

/-- Earlier attempt at exam 5: score 70, submitted at time 1000. -/
def c7Com70 : ExamCompletion :=
  { exam := { id := 5, passingPoints := 75 }, score := 70, submittedAt := 1000 }

/-- Later attempt at exam 5: score 90, submitted at time 2000. -/
def c7Com90 : ExamCompletion :=
  { exam := { id := 5, passingPoints := 75 }, score := 90, submittedAt := 2000 }

/-- Student with two attempts at the same exam, earlier one first in the
input array. -/
def c7Student : Student :=
  { id := 1, firstName := "A", lastName := "B", middleName := "C"
    examCompletions := [c7Com70, c7Com90]
    activityCompletions := [] }

/-- Activity whose categories are stored in ascending updatedAt order. -/
def c10Activity : Activity :=
  { id := 10, gameType := ActivityCategoryType.Point
    categories := [{ id := 1, level := 1, updatedAt := 1 },
                   { id := 2, level := 2, updatedAt := 2 }] }

/-! ## Theorems -/

/-! ## Helper lemmas -/

theorem dedupByKey_sublist {α β : Type} [DecidableEq β] (key : α → β) :
    ∀ l : List α, dedupByKey key l <+ l
  | [] => Sublist.refl []
  | x :: xs => by
    rw [dedupByKey]
    exact Sublist.cons₂ x (Sublist.trans (filter_sublist _) (dedupByKey_sublist key xs))

theorem mem_of_mem_dedupByKey {α β : Type} [DecidableEq β] {key : α → β} {l : List α} {x : α}
    (h : x ∈ dedupByKey key l) : x ∈ l :=
  (dedupByKey_sublist key l).subset h

theorem dedupByKey_eq_nil_iff {α β : Type} [DecidableEq β] (key : α → β) (l : List α) :
    dedupByKey key l = [] ↔ l = [] := by
  cases l with
  | nil => simp [dedupByKey]
  | cons x xs => simp [dedupByKey]

/-- The keep-first-per-key dedup, restricted to one key, keeps exactly the
first element of that key. -/
theorem dedupByKey_filter_key {α β : Type} [DecidableEq β] (key : α → β) (b : β) :
    ∀ l : List α,
      (dedupByKey key l).filter (fun x => key x == b) =
        (l.filter (fun x => key x == b)).take 1
  | [] => rfl
  | x :: xs => by
    rw [dedupByKey, filter_cons, filter_cons]
    by_cases hx : key x = b
    · have hxb : (key x == b) = true := beq_iff_eq.mpr hx
      rw [hxb, if_pos rfl, if_pos rfl, take_succ_cons, take_zero]
      have hnil : ((dedupByKey key xs).filter (fun y => key y != key x)).filter
          (fun y => key y == b) = [] := by
        refine filter_eq_nil_iff.mpr (fun y hy => ?_)
        have hne := (mem_filter.mp hy).2
        intro hyb
        rw [hx] at hne
        simp only [bne_iff_ne, ne_eq] at hne
        exact hne (beq_iff_eq.mp hyb)
      rw [hnil]
    · have hxb : (key x == b) = false := beq_eq_false_iff_ne.mpr hx
      rw [hxb, if_neg Bool.false_ne_true, if_neg Bool.false_ne_true]
      rw [filter_filter]
      have hcong : ∀ y ∈ dedupByKey key xs,
          ((key y == b) && (key y != key x)) = (key y == b) := by
        intro y _
        by_cases hyb : key y = b
        · have h1 : (key y == b) = true := beq_iff_eq.mpr hyb
          have h2 : (key y != key x) = true := by
            simp only [bne_iff_ne, ne_eq]
            intro hc
            exact hx (hc ▸ hyb)
          rw [h1, h2, Bool.true_and]
        · have h1 : (key y == b) = false := beq_eq_false_iff_ne.mpr hyb
          rw [h1, Bool.false_and]
      rw [filter_congr hcong, dedupByKey_filter_key key b xs]

theorem insertionSort_eq_nil_iff {α : Type} (r : α → α → Prop) [DecidableRel r] (l : List α) :
    insertionSort r l = [] ↔ l = [] := by
  constructor
  · intro h
    have := length_insertionSort r l
    rw [h] at this
    exact List.eq_nil_of_length_eq_zero this.symm
  · intro h
    simp [h, insertionSort]

/-- The head of a list sorted descending by a key dominates every element
of the unsorted list. -/
theorem head_insertionSort_byKeyDesc_max {α β : Type} [LinearOrder β] (k : α → β)
    {l t : List α} {h : α}
    (hs : insertionSort (byKeyDesc k) l = h :: t) :
    ∀ x ∈ l, k x ≤ k h := by
  intro x hx
  have hsorted : Sorted (byKeyDesc k) (insertionSort (byKeyDesc k) l) :=
    sorted_insertionSort (byKeyDesc k) l
  rw [hs] at hsorted
  have hmem : x ∈ h :: t := by
    rw [← hs, mem_insertionSort]
    exact hx
  rcases mem_cons.mp hmem with rfl | hxt
  · exact le_refl _
  · exact rel_of_sorted_cons hsorted x hxt

/-- Stability of the double sort: if the input is pairwise nondecreasing
by a secondary key, the head of the descending-by-primary-key sort has the
least secondary key among the elements that tie on the primary key. -/
theorem head_insertionSort_byKeyDesc_tie {α β γ : Type} [LinearOrder β] [LinearOrder γ]
    (k : α → β) (k' : α → γ) :
    ∀ {l t : List α} {h : α},
      Pairwise (fun x y => k' x ≤ k' y) l →
      insertionSort (byKeyDesc k) l = h :: t →
      ∀ x ∈ l, k x = k h → k' h ≤ k' x := by
  intro l
  induction l with
  | nil => intro t h _ hs; simp [insertionSort] at hs
  | cons a l' ih =>
    intro t h hp hs x hx hkx
    rw [pairwise_cons] at hp
    rw [insertionSort] at hs
    cases hsort : insertionSort (byKeyDesc k) l' with
    | nil =>
      rw [hsort] at hs
      simp only [orderedInsert] at hs
      cases hs
      rcases mem_cons.mp hx with rfl | hxl
      · exact le_refl _
      · exact hp.1 x hxl
    | cons b t' =>
      rw [hsort] at hs
      rw [orderedInsert] at hs
      by_cases hab : byKeyDesc k a b
      · rw [if_pos hab] at hs
        cases hs
        rcases mem_cons.mp hx with rfl | hxl
        · exact le_refl _
        · exact hp.1 x hxl
      · rw [if_neg hab] at hs
        have hb : h = b := by
          cases hs; rfl
        subst hb
        rcases mem_cons.mp hx with rfl | hxl
        · exact absurd (le_of_eq hkx.symm) hab
        · exact ih hp.2 hsort x hxl hkx

theorem competitionRank_nil {α : Type} (g : α → Option ℚ)
    (prev : Option ℚ) (cur : Option Nat) (idx : Nat) :
    competitionRank g prev cur idx [] = [] := rfl

theorem competitionRank_cons {α : Type} (g : α → Option ℚ)
    (prev : Option ℚ) (cur : Option Nat) (idx : Nat) (e : α) (rest : List α) :
    competitionRank g prev cur idx (e :: rest) =
      (e, if g e = prev then cur else some (idx + 1)) ::
        competitionRank g (g e) (if g e = prev then cur else some (idx + 1)) (idx + 1) rest :=
  rfl

theorem competitionRank_length {α : Type} (g : α → Option ℚ) :
    ∀ (prev : Option ℚ) (cur : Option Nat) (idx : Nat) (l : List α),
      (competitionRank g prev cur idx l).length = l.length
  | _, _, _, [] => rfl
  | prev, cur, idx, e :: rest => by
    rw [competitionRank_cons]
    simp [competitionRank_length g (g e) _ (idx + 1) rest]

theorem competitionRank_map_fst {α : Type} (g : α → Option ℚ) :
    ∀ (prev : Option ℚ) (cur : Option Nat) (idx : Nat) (l : List α),
      (competitionRank g prev cur idx l).map Prod.fst = l
  | _, _, _, [] => rfl
  | prev, cur, idx, e :: rest => by
    rw [competitionRank_cons]
    simp [competitionRank_map_fst g (g e) _ (idx + 1) rest]

theorem competitionRank_get_fst {α : Type} (g : α → Option ℚ)
    (prev : Option ℚ) (cur : Option Nat) (idx : Nat) (l : List α)
    (i : Nat) (h : i < (competitionRank g prev cur idx l).length) (h' : i < l.length) :
    ((competitionRank g prev cur idx l).get ⟨i, h⟩).1 = l.get ⟨i, h'⟩ := by
  have hm := competitionRank_map_fst g prev cur idx l
  have h2 : i < ((competitionRank g prev cur idx l).map Prod.fst).length := by
    simpa [length_map] using h
  calc ((competitionRank g prev cur idx l).get ⟨i, h⟩).1
      = ((competitionRank g prev cur idx l).map Prod.fst).get ⟨i, h2⟩ := by
        simp [get_eq_getElem, getElem_map]
    _ = l.get ⟨i, h'⟩ := by
        rw [get_of_eq hm ⟨i, h2⟩]

theorem competitionRank_rank_zero {α : Type} (g : α → Option ℚ)
    (prev : Option ℚ) (cur : Option Nat) (idx : Nat) (l : List α)
    (h : 0 < (competitionRank g prev cur idx l).length) (h' : 0 < l.length)
    (hne : g (l.get ⟨0, h'⟩) ≠ prev) :
    ((competitionRank g prev cur idx l).get ⟨0, h⟩).2 = some (idx + 1) := by
  cases l with
  | nil => simp at h'
  | cons e rest =>
    have hval : ((competitionRank g prev cur idx (e :: rest)).get ⟨0, h⟩).2 =
        if g e = prev then cur else some (idx + 1) := rfl
    have hne' : g e ≠ prev := hne
    rw [hval, if_neg hne']

/-- Consecutive entries of a competition ranking: an equal score shares
the rank of the previous entry, a distinct score jumps to its 1-based
position. -/
theorem competitionRank_rank_succ {α : Type} (g : α → Option ℚ) :
    ∀ (l : List α) (prev : Option ℚ) (cur : Option Nat) (idx : Nat) (i : Nat)
      (h1 : i + 1 < l.length) (h0 : i < l.length)
      (o1 : i + 1 < (competitionRank g prev cur idx l).length)
      (o0 : i < (competitionRank g prev cur idx l).length),
      (g (l.get ⟨i + 1, h1⟩) = g (l.get ⟨i, h0⟩) →
        ((competitionRank g prev cur idx l).get ⟨i + 1, o1⟩).2 =
          ((competitionRank g prev cur idx l).get ⟨i, o0⟩).2) ∧
      (g (l.get ⟨i + 1, h1⟩) ≠ g (l.get ⟨i, h0⟩) →
        ((competitionRank g prev cur idx l).get ⟨i + 1, o1⟩).2 = some (idx + i + 2)) := by
  intro l
  induction l with
  | nil => intro prev cur idx i h1; simp at h1
  | cons e rest ih =>
    intro prev cur idx i h1 h0 o1 o0
    cases i with
    | zero =>
      cases rest with
      | nil => simp at h1
      | cons b t =>
        have hv1 : ((competitionRank g prev cur idx (e :: b :: t)).get ⟨0 + 1, o1⟩).2 =
            if g b = g e then (if g e = prev then cur else some (idx + 1))
            else some (idx + 1 + 1) := rfl
        have hv0 : ((competitionRank g prev cur idx (e :: b :: t)).get ⟨0, o0⟩).2 =
            if g e = prev then cur else some (idx + 1) := rfl
        constructor
        · intro heq
          have heq' : g b = g e := heq
          rw [hv1, hv0, if_pos heq']
        · intro hne
          have hne' : g b ≠ g e := hne
          rw [hv1, if_neg hne']
    | succ j =>
      have h1r : j + 1 < rest.length := by simpa using h1
      have h0r : j < rest.length := by simpa using h0
      have o1r : j + 1 <
          (competitionRank g (g e) (if g e = prev then cur else some (idx + 1)) (idx + 1)
            rest).length := by
        rw [competitionRank_length]
        exact h1r
      have o0r : j <
          (competitionRank g (g e) (if g e = prev then cur else some (idx + 1)) (idx + 1)
            rest).length := by
        rw [competitionRank_length]
        exact h0r
      have hrec := ih (g e) (if g e = prev then cur else some (idx + 1)) (idx + 1) j h1r h0r o1r o0r
      constructor
      · intro heq
        exact hrec.1 heq
      · intro hne
        have hstep := hrec.2 hne
        have harith : idx + 1 + j + 2 = idx + (j + 1) + 2 := by omega
        rw [harith] at hstep
        exact hstep

/-- Every entry of a competition ranking over scored elements receives a
rank. -/
theorem competitionRank_rank_isSome {α : Type} (g : α → Option ℚ) :
    ∀ (l : List α) (prev : Option ℚ) (cur : Option Nat),
      (∀ x ∈ l, (g x).isSome) → (prev.isSome → cur.isSome) →
      ∀ (idx : Nat) (p : α × Option Nat), p ∈ competitionRank g prev cur idx l → p.2.isSome
  | [], _, _, _, _, _, _, hp => by simp [competitionRank_nil] at hp
  | e :: rest, prev, cur, hall, hinv, idx, p, hp => by
    rw [competitionRank_cons] at hp
    have hsome : (g e).isSome := hall e (mem_cons_self e rest)
    have hr : (if g e = prev then cur else some (idx + 1)).isSome := by
      by_cases heq : g e = prev
      · rw [if_pos heq]
        exact hinv (heq ▸ hsome)
      · rw [if_neg heq]
        rfl
    rcases mem_cons.mp hp with rfl | hmem
    · exact hr
    · exact competitionRank_rank_isSome g rest (g e) _
        (fun x hx => hall x (mem_cons_of_mem e hx)) (fun _ => hr) (idx + 1) p hmem

theorem rankSequential_nil {α : Type} (idx : Nat) :
    rankSequential idx ([] : List α) = [] := rfl

theorem rankSequential_cons {α : Type} (idx : Nat) (e : α) (rest : List α) :
    rankSequential idx (e :: rest) = (e, idx + 1) :: rankSequential (idx + 1) rest := rfl

theorem rankSequential_length {α : Type} :
    ∀ (idx : Nat) (l : List α), (rankSequential idx l).length = l.length
  | _, [] => rfl
  | idx, e :: rest => by
    rw [rankSequential_cons]
    simp [rankSequential_length (idx + 1) rest]

theorem rankSequential_get {α : Type} :
    ∀ (l : List α) (idx : Nat) (i : Nat) (h : i < (rankSequential idx l).length)
      (h' : i < l.length),
      (rankSequential idx l).get ⟨i, h⟩ = (l.get ⟨i, h'⟩, idx + i + 1)
  | [], _, i, h, _ => by simp [rankSequential_nil] at h
  | e :: rest, idx, 0, h, h' => rfl
  | e :: rest, idx, i + 1, h, h' => by
    have hr' : i < rest.length := by simpa using h'
    have hr : i < (rankSequential (idx + 1) rest).length := by
      rw [rankSequential_length]
      exact hr'
    have hstep := rankSequential_get rest (idx + 1) i hr hr'
    have harith : idx + 1 + i + 1 = idx + (i + 1) + 1 := by omega
    rw [harith] at hstep
    exact hstep

theorem rankSequential_map_fst {α : Type} :
    ∀ (idx : Nat) (l : List α), (rankSequential idx l).map Prod.fst = l
  | _, [] => rfl
  | idx, e :: rest => by
    rw [rankSequential_cons]
    simp [rankSequential_map_fst (idx + 1) rest]

/-- Bridge lemma: the rank structure of a competition-ranked list after
the `{ ...entry, rank }` rebuild. -/
theorem competitionRanked_props {σ : Type} (score : σ → Option ℚ) (rank : σ → Option Nat)
    (f : σ × Option Nat → σ)
    (hf_score : ∀ p, score (f p) = score p.1)
    (hf_rank : ∀ p, rank (f p) = p.2)
    (sorted : List σ) (hall : ∀ x ∈ sorted, (score x).isSome)
    (R : List σ) (hR : R = (competitionRank score none none 0 sorted).map f) :
    (∀ h : 0 < R.length, rank (R.get ⟨0, h⟩) = some 1) ∧
    (∀ (i : Nat) (h1 : i + 1 < R.length) (h0 : i < R.length),
      (score (R.get ⟨i + 1, h1⟩) = score (R.get ⟨i, h0⟩) →
        rank (R.get ⟨i + 1, h1⟩) = rank (R.get ⟨i, h0⟩)) ∧
      (score (R.get ⟨i + 1, h1⟩) ≠ score (R.get ⟨i, h0⟩) →
        rank (R.get ⟨i + 1, h1⟩) = some (i + 2))) := by
  have hlenR : R.length = sorted.length := by
    rw [hR, length_map, competitionRank_length]
  have hget : ∀ (i : Nat) (h : i < R.length)
      (hp : i < (competitionRank score none none 0 sorted).length),
      R.get ⟨i, h⟩ = f ((competitionRank score none none 0 sorted).get ⟨i, hp⟩) := by
    intro i h hp
    rw [get_of_eq hR ⟨i, h⟩]
    simp [get_eq_getElem, getElem_map]
  have hplen : ∀ {i : Nat}, i < R.length →
      i < (competitionRank score none none 0 sorted).length := by
    intro i h
    rw [competitionRank_length]
    rw [hlenR] at h
    exact h
  have hslen : ∀ {i : Nat}, i < R.length → i < sorted.length := by
    intro i h
    rw [hlenR] at h
    exact h
  constructor
  · intro h
    have hp := hplen h
    have hs := hslen h
    rw [hget 0 h hp, hf_rank]
    refine competitionRank_rank_zero score none none 0 sorted hp hs ?_
    have hmem : sorted.get ⟨0, hs⟩ ∈ sorted := get_mem sorted 0 hs
    have := hall _ hmem
    intro hc
    rw [hc] at this
    simp at this
  · intro i h1 h0
    have hp1 := hplen h1
    have hp0 := hplen h0
    have hs1 := hslen h1
    have hs0 := hslen h0
    have hfst1 := competitionRank_get_fst score none none 0 sorted (i + 1) hp1 hs1
    have hfst0 := competitionRank_get_fst score none none 0 sorted i hp0 hs0
    have hscore1 : score (R.get ⟨i + 1, h1⟩) = score (sorted.get ⟨i + 1, hs1⟩) := by
      rw [hget (i + 1) h1 hp1, hf_score, hfst1]
    have hscore0 : score (R.get ⟨i, h0⟩) = score (sorted.get ⟨i, hs0⟩) := by
      rw [hget i h0 hp0, hf_score, hfst0]
    have hrank1 : rank (R.get ⟨i + 1, h1⟩) =
        ((competitionRank score none none 0 sorted).get ⟨i + 1, hp1⟩).2 := by
      rw [hget (i + 1) h1 hp1, hf_rank]
    have hrank0 : rank (R.get ⟨i, h0⟩) =
        ((competitionRank score none none 0 sorted).get ⟨i, hp0⟩).2 := by
      rw [hget i h0 hp0, hf_rank]
    have hrec := competitionRank_rank_succ score sorted none none 0 i hs1 hs0 hp1 hp0
    constructor
    · intro heq
      rw [hrank1, hrank0]
      refine hrec.1 ?_
      rw [← hscore1, ← hscore0]
      exact heq
    · intro hne
      rw [hrank1]
      have harith : 0 + i + 2 = i + 2 := by omega
      rw [← harith]
      refine hrec.2 ?_
      rw [← hscore1, ← hscore0]
      exact hne

theorem mapExcept_ok {α β ε : Type} (f : α → Except ε β) :
    ∀ {l : List α} {ys : List β}, mapExcept f l = .ok ys →
      Forall₂ (fun x y => f x = .ok y) l ys := by
  intro l
  induction l with
  | nil =>
    intro ys h
    rw [mapExcept] at h
    cases h
    exact Forall₂.nil
  | cons x xs ih =>
    intro ys h
    rw [mapExcept] at h
    cases hfx : f x with
    | error e => rw [hfx] at h; cases h
    | ok y =>
      rw [hfx] at h
      cases hrest : mapExcept f xs with
      | error e => rw [hrest] at h; cases h
      | ok ys' =>
        rw [hrest] at h
        cases h
        exact Forall₂.cons hfx (ih hrest)

theorem rankActivityStudents_time {a : Activity} (h : a.gameType = ActivityCategoryType.Time)
    (sd : List StudentData) : rankActivityStudents a sd = rankBranchTime sd := by
  unfold rankActivityStudents
  rw [h]

theorem rankActivityStudents_point {a : Activity} (h : a.gameType = ActivityCategoryType.Point)
    (sd : List StudentData) : rankActivityStudents a sd = rankBranchDesc sd := by
  unfold rankActivityStudents
  rw [h]

theorem rankActivityStudents_stage {a : Activity} (h : a.gameType = ActivityCategoryType.Stage)
    (sd : List StudentData) : rankActivityStudents a sd = rankBranchDesc sd := by
  unfold rankActivityStudents
  rw [h]

/-- A successful generateActivityRankings run is the ranking phase
applied to the per-student data. -/
theorem generateActivityRankings_ok {a : Activity} {students : List Student}
    {es : List ActivityRankEntry} (h : generateActivityRankings a students = .ok es) :
    ∃ sd : List StudentData,
      mapExcept (studentActivityData a) students = .ok sd ∧
      Forall₂ (fun s d => studentActivityData a s = .ok d) students sd ∧
      es = rankActivityStudents a sd := by
  unfold generateActivityRankings at h
  cases hmap : mapExcept (studentActivityData a) students with
  | error e => rw [hmap] at h; cases h
  | ok sd =>
    rw [hmap] at h
    cases h
    exact ⟨sd, rfl, mapExcept_ok _ hmap, rfl⟩

/-- In a ranked-prefix-plus-unranked-suffix list, an entry with a rank is
in the prefix and its rank is its 1-based position. -/
theorem seqRanked_rank_pos (S U : List StudentData) (i : Nat)
    (h : i < ((rankSequential 0 S).map mkRanked ++ U.map mkUnranked).length)
    (hsome : ((((rankSequential 0 S).map mkRanked ++ U.map mkUnranked).get ⟨i, h⟩).rank).isSome) :
    (((rankSequential 0 S).map mkRanked ++ U.map mkUnranked).get ⟨i, h⟩).rank = some (i + 1) := by
  have hAlen : ((rankSequential 0 S).map mkRanked).length = S.length := by
    rw [length_map, rankSequential_length]
  by_cases hi : i < ((rankSequential 0 S).map mkRanked).length
  · have hgetA : (((rankSequential 0 S).map mkRanked ++ U.map mkUnranked).get ⟨i, h⟩) =
        ((rankSequential 0 S).map mkRanked).get ⟨i, hi⟩ := by
      simp only [get_eq_getElem]
      rw [getElem_append_left hi]
    have hiS : i < S.length := by rw [← hAlen]; exact hi
    have hiR : i < (rankSequential 0 S).length := by rw [rankSequential_length]; exact hiS
    have hmap : ((rankSequential 0 S).map mkRanked).get ⟨i, hi⟩ =
        mkRanked ((rankSequential 0 S).get ⟨i, hiR⟩) := by
      simp [get_eq_getElem, getElem_map]
    rw [hgetA, hmap, rankSequential_get S 0 i hiR hiS]
    simp [mkRanked]
  · have hle : ((rankSequential 0 S).map mkRanked).length ≤ i := le_of_not_lt hi
    have hBlen : (U.map mkUnranked).length = U.length := length_map U mkUnranked
    have hUlen : i - ((rankSequential 0 S).map mkRanked).length < (U.map mkUnranked).length := by
      have htot := h
      rw [length_append] at htot
      omega
    have hgetB : (((rankSequential 0 S).map mkRanked ++ U.map mkUnranked).get ⟨i, h⟩) =
        (U.map mkUnranked).get ⟨i - ((rankSequential 0 S).map mkRanked).length, hUlen⟩ := by
      simp only [get_eq_getElem]
      rw [getElem_append_right hle]
    exfalso
    have hU2 : i - ((rankSequential 0 S).map mkRanked).length < U.length := by
      rw [← hBlen]; exact hUlen
    have hmapU : ((U.map mkUnranked).get
          ⟨i - ((rankSequential 0 S).map mkRanked).length, hUlen⟩) =
        mkUnranked (U.get ⟨i - ((rankSequential 0 S).map mkRanked).length, hU2⟩) := by
      simp [get_eq_getElem, getElem_map]
    rw [hgetB, hmapU] at hsome
    simp [mkUnranked] at hsome

/-- A ranked-prefix-plus-unranked-suffix list is pairwise ordered by any
relation the sorted prefix satisfies, guarded on both entries being
ranked. -/
theorem seqRanked_pairwise (q : Option ℚ → Option ℚ → Prop) (S U : List StudentData)
    (hS : S.Pairwise (fun d1 d2 => q d1.score d2.score)) :
    ((rankSequential 0 S).map mkRanked ++ U.map mkUnranked).Pairwise
      (fun e1 e2 => e1.rank.isSome → e2.rank.isSome → q e1.score e2.score) := by
  rw [pairwise_append]
  refine ⟨?_, ?_, ?_⟩
  · rw [pairwise_map]
    have h1 : ((rankSequential 0 S).map Prod.fst).Pairwise
        (fun d1 d2 => q d1.score d2.score) := by
      rw [rankSequential_map_fst]
      exact hS
    have hpairs := pairwise_map.mp h1
    refine hpairs.imp ?_
    intro p1 p2 hq
    intro _ _
    exact hq
  · rw [pairwise_map]
    refine pairwise_of_forall_mem_list ?_
    intro d1 _ d2 _
    intro _ habs
    simp [mkUnranked] at habs
  · intro e1 _ e2 he2
    rw [mem_map] at he2
    obtain ⟨d, _, rfl⟩ := he2
    intro _ habs
    simp [mkUnranked] at habs

/-- The student ids of the ranking-phase output, in order: ranked part
ids then unranked part ids. -/
theorem seqRanked_map_studentId (S U : List StudentData) :
    (((rankSequential 0 S).map mkRanked ++ U.map mkUnranked).map
        (fun e => e.studentId)) =
      S.map (fun d => d.studentId) ++ U.map (fun d => d.studentId) := by
  rw [map_append, map_map, map_map]
  congr 1
  have : ((fun e : ActivityRankEntry => e.studentId) ∘ mkRanked) =
      fun p : StudentData × Nat => p.1.studentId := rfl
  rw [this]
  have h2 : (fun p : StudentData × Nat => p.1.studentId) =
      (fun d : StudentData => d.studentId) ∘ Prod.fst := rfl
  rw [h2, ← map_map, rankSequential_map_fst]

theorem isNone_eq_not_isSome {γ : Type} (o : Option γ) : o.isNone = !o.isSome := by
  cases o <;> rfl

/-- The complement identity between the two `Time` branch filters. -/
theorem timeIncomplete_eq_not (d : StudentData) :
    (d.score.isNone || decide (d.completions.length < 3)) =
      !(d.score.isSome && decide (3 ≤ d.completions.length)) := by
  cases hs : d.score <;> by_cases h3 : 3 ≤ d.completions.length <;>
    simp [h3, Nat.not_le, Nat.lt_of_not_le]

theorem transformExamStudent_student (s : Student) : (transformExamStudent s).student = s := by
  by_cases h : (filteredExamCompletions s).isEmpty <;> simp [transformExamStudent, h]

theorem studentActivityData_point {a : Activity} (h : a.gameType = ActivityCategoryType.Point)
    (s : Student) : studentActivityData a s = .ok (pointStudentData a s) := by
  unfold studentActivityData
  rw [h]

theorem studentActivityData_time {a : Activity} (h : a.gameType = ActivityCategoryType.Time)
    (s : Student) : studentActivityData a s = .ok (timeStudentData a s) := by
  unfold studentActivityData
  rw [h]

theorem studentActivityData_stage {a : Activity} (h : a.gameType = ActivityCategoryType.Stage)
    (s : Student) : studentActivityData a s = stageStudentData a s := by
  unfold studentActivityData
  rw [h]

theorem stageStudentData_studentId {a : Activity} {s : Student} {d : StudentData}
    (h : stageStudentData a s = .ok d) : d.studentId = s.id := by
  unfold stageStudentData at h
  rcases htcs : targetCompletionsOf a s with _ | ⟨c, coms⟩
  · rw [htcs] at h
    cases h
    rfl
  · rw [htcs] at h
    cases hcat : (filteredCategoriesOf a).head? with
    | none => rw [hcat] at h; cases h
    | some cat => rw [hcat] at h; cases h; rfl

theorem studentActivityData_studentId {a : Activity} {s : Student} {d : StudentData}
    (h : studentActivityData a s = .ok d) : d.studentId = s.id := by
  cases htype : a.gameType with
  | Point =>
    rw [studentActivityData_point htype] at h
    cases h
    rfl
  | Time =>
    rw [studentActivityData_time htype] at h
    cases h
    rfl
  | Stage =>
    rw [studentActivityData_stage htype] at h
    exact stageStudentData_studentId h

theorem forall₂_map_eq {α β γ : Type} {R : α → β → Prop} {f : α → γ} {g : β → γ} :
    ∀ {l1 : List α} {l2 : List β}, Forall₂ R l1 l2 → (∀ a b, R a b → f a = g b) →
      l1.map f = l2.map g := by
  intro l1 l2 hfa hfg
  induction hfa with
  | nil => rfl
  | cons hab _ ih => simp [hfg _ _ hab, ih]

/-- One branch of the ranking phase permutes the input ids: ranked part
from the sorted filter, unranked part from the complementary filter. -/
theorem rankBranch_perm (sd : List StudentData) (p : StudentData → Bool)
    (r : StudentData → StudentData → Prop) [DecidableRel r] :
    (((rankSequential 0 (insertionSort r (sd.filter p))).map mkRanked ++
        (sd.filter (fun d => !p d)).map mkUnranked).map (fun e => e.studentId)) ~
      sd.map (fun d => d.studentId) := by
  rw [seqRanked_map_studentId]
  have h1 : (insertionSort r (sd.filter p)).map (fun d => d.studentId) ~
      (sd.filter p).map (fun d => d.studentId) :=
    (perm_insertionSort r (sd.filter p)).map _
  have h2 := h1.append
    (Perm.refl ((sd.filter (fun d => !p d)).map (fun d => d.studentId)))
  refine h2.trans ?_
  rw [← map_append]
  exact (filter_append_perm p sd).map _

/-- The student ids of the ranking phase output are a permutation of the
student ids of the input data. -/
theorem rankActivityStudents_perm (a : Activity) (sd : List StudentData) :
    (rankActivityStudents a sd).map (fun e => e.studentId) ~
      sd.map (fun d => d.studentId) := by
  cases htype : a.gameType with
  | Time =>
    rw [rankActivityStudents_time htype]
    have hfe : sd.filter (fun d => d.score.isNone || decide (d.completions.length < 3)) =
        sd.filter (fun d => !(d.score.isSome && decide (3 ≤ d.completions.length))) :=
      filter_congr (fun d _ => timeIncomplete_eq_not d)
    unfold rankBranchTime
    rw [hfe]
    exact rankBranch_perm sd (fun d => d.score.isSome && decide (3 ≤ d.completions.length)) _
  | Point =>
    rw [rankActivityStudents_point htype]
    have hfe : sd.filter (fun d => d.score.isNone) =
        sd.filter (fun d => !d.score.isSome) :=
      filter_congr (fun d _ => isNone_eq_not_isSome d.score)
    unfold rankBranchDesc
    rw [hfe]
    exact rankBranch_perm sd (fun d => d.score.isSome) _
  | Stage =>
    rw [rankActivityStudents_stage htype]
    have hfe : sd.filter (fun d => d.score.isNone) =
        sd.filter (fun d => !d.score.isSome) :=
      filter_congr (fun d _ => isNone_eq_not_isSome d.score)
    unfold rankBranchDesc
    rw [hfe]
    exact rankBranch_perm sd (fun d => d.score.isSome) _

theorem generateOverallExamRankings_fst (students : List Student) :
    (generateOverallExamRankings students).1 =
      (competitionRank (fun e => e.overallExamScore) none none 0
          (insertionSort (byKeyDesc (fun e : ExamRankedStudent => numOf e.overallExamScore))
            ((students.map transformExamStudent).filter
              (fun e => e.overallExamScore.isSome)))).map
        (fun p => { p.1 with overallExamRank := p.2 }) := rfl

theorem generateOverallExamRankings_snd (students : List Student) :
    (generateOverallExamRankings students).2 =
      (insertionSort (byKeyAsc (fun e : ExamRankedStudent => studentFullName e.student))
          ((students.map transformExamStudent).filter
            (fun e => e.overallExamScore.isNone))).map
        (fun e => { e with overallExamRank := none }) := rfl

theorem generateOverallActivityRankings_fst (students : List Student) :
    (generateOverallActivityRankings students).1 =
      (competitionRank (fun e => e.overallActivityScore) none none 0
          (insertionSort
            (byKeyDesc (fun e : ActivityRankedStudent => numOf e.overallActivityScore))
            ((students.map transformActivityStudent).filter
              (fun e => e.overallActivityScore.isSome)))).map
        (fun p => { p.1 with overallActivityRank := p.2 }) := rfl

theorem generateOverallActivityRankings_snd (students : List Student) :
    (generateOverallActivityRankings students).2 =
      (insertionSort (byKeyAsc (fun e : ActivityRankedStudent => studentFullName e.student))
          ((students.map transformActivityStudent).filter
            (fun e => e.overallActivityScore.isNone))).map
        (fun e => { e with overallActivityRank := none }) := rfl

theorem generateOverallExamRankings_perm (students : List Student) :
    (((generateOverallExamRankings students).1 ++ (generateOverallExamRankings students).2).map
        (fun e => e.student)) ~ students := by
  rw [map_append]
  have hr : (generateOverallExamRankings students).1.map (fun e => e.student) =
      (insertionSort (byKeyDesc (fun e : ExamRankedStudent => numOf e.overallExamScore))
          ((students.map transformExamStudent).filter
            (fun e => e.overallExamScore.isSome))).map (fun e => e.student) := by
    rw [generateOverallExamRankings_fst, map_map]
    have h1 : ((fun e : ExamRankedStudent => e.student) ∘
        (fun p : ExamRankedStudent × Option Nat => { p.1 with overallExamRank := p.2 })) =
        ((fun e : ExamRankedStudent => e.student) ∘ Prod.fst) := rfl
    rw [h1, ← map_map, competitionRank_map_fst]
  have hu : (generateOverallExamRankings students).2.map (fun e => e.student) =
      (insertionSort (byKeyAsc (fun e : ExamRankedStudent => studentFullName e.student))
          ((students.map transformExamStudent).filter
            (fun e => e.overallExamScore.isNone))).map (fun e => e.student) := by
    rw [generateOverallExamRankings_snd, map_map]
    have h1 : ((fun e : ExamRankedStudent => e.student) ∘
        (fun e : ExamRankedStudent => { e with overallExamRank := none })) =
        (fun e : ExamRankedStudent => e.student) := rfl
    rw [h1]
  rw [hr, hu]
  have hp1 := (perm_insertionSort
    (byKeyDesc (fun e : ExamRankedStudent => numOf e.overallExamScore))
    ((students.map transformExamStudent).filter (fun e => e.overallExamScore.isSome))).map
    (fun e : ExamRankedStudent => e.student)
  have hp2 := (perm_insertionSort
    (byKeyAsc (fun e : ExamRankedStudent => studentFullName e.student))
    ((students.map transformExamStudent).filter (fun e => e.overallExamScore.isNone))).map
    (fun e : ExamRankedStudent => e.student)
  refine (hp1.append hp2).trans ?_
  rw [← map_append]
  have hfe : (students.map transformExamStudent).filter (fun e => e.overallExamScore.isNone) =
      (students.map transformExamStudent).filter (fun e => !e.overallExamScore.isSome) :=
    filter_congr (fun e _ => isNone_eq_not_isSome e.overallExamScore)
  rw [hfe]
  have hfp := (filter_append_perm (fun e : ExamRankedStudent => e.overallExamScore.isSome)
    (students.map transformExamStudent)).map (fun e : ExamRankedStudent => e.student)
  refine hfp.trans ?_
  rw [map_map]
  have hcongr : students.map ((fun e : ExamRankedStudent => e.student) ∘ transformExamStudent) =
      students.map id :=
    map_congr_left (fun s _ => transformExamStudent_student s)
  rw [hcongr, map_id]

theorem generateOverallActivityRankings_perm (students : List Student) :
    (((generateOverallActivityRankings students).1 ++
          (generateOverallActivityRankings students).2).map
        (fun e => e.student)) ~ students := by
  rw [map_append]
  have hr : (generateOverallActivityRankings students).1.map (fun e => e.student) =
      (insertionSort (byKeyDesc (fun e : ActivityRankedStudent => numOf e.overallActivityScore))
          ((students.map transformActivityStudent).filter
            (fun e => e.overallActivityScore.isSome))).map (fun e => e.student) := by
    rw [generateOverallActivityRankings_fst, map_map]
    have h1 : ((fun e : ActivityRankedStudent => e.student) ∘
        (fun p : ActivityRankedStudent × Option Nat =>
          { p.1 with overallActivityRank := p.2 })) =
        ((fun e : ActivityRankedStudent => e.student) ∘ Prod.fst) := rfl
    rw [h1, ← map_map, competitionRank_map_fst]
  have hu : (generateOverallActivityRankings students).2.map (fun e => e.student) =
      (insertionSort (byKeyAsc (fun e : ActivityRankedStudent => studentFullName e.student))
          ((students.map transformActivityStudent).filter
            (fun e => e.overallActivityScore.isNone))).map (fun e => e.student) := by
    rw [generateOverallActivityRankings_snd, map_map]
    have h1 : ((fun e : ActivityRankedStudent => e.student) ∘
        (fun e : ActivityRankedStudent => { e with overallActivityRank := none })) =
        (fun e : ActivityRankedStudent => e.student) := rfl
    rw [h1]
  rw [hr, hu]
  have hp1 := (perm_insertionSort
    (byKeyDesc (fun e : ActivityRankedStudent => numOf e.overallActivityScore))
    ((students.map transformActivityStudent).filter
      (fun e => e.overallActivityScore.isSome))).map
    (fun e : ActivityRankedStudent => e.student)
  have hp2 := (perm_insertionSort
    (byKeyAsc (fun e : ActivityRankedStudent => studentFullName e.student))
    ((students.map transformActivityStudent).filter
      (fun e => e.overallActivityScore.isNone))).map
    (fun e : ActivityRankedStudent => e.student)
  refine (hp1.append hp2).trans ?_
  rw [← map_append]
  have hfe : (students.map transformActivityStudent).filter
        (fun e => e.overallActivityScore.isNone) =
      (students.map transformActivityStudent).filter
        (fun e => !e.overallActivityScore.isSome) :=
    filter_congr (fun e _ => isNone_eq_not_isSome e.overallActivityScore)
  rw [hfe]
  have hfp := (filter_append_perm
    (fun e : ActivityRankedStudent => e.overallActivityScore.isSome)
    (students.map transformActivityStudent)).map
    (fun e : ActivityRankedStudent => e.student)
  refine hfp.trans ?_
  rw [map_map]
  have hcongr : students.map
      ((fun e : ActivityRankedStudent => e.student) ∘ transformActivityStudent) =
      students.map id :=
    map_congr_left (fun s _ => rfl)
  rw [hcongr, map_id]

/-- The entries of the unranked suffix are exactly the entries without a
rank. -/
theorem rankBranch_filter_unranked (S U : List StudentData) :
    (((rankSequential 0 S).map mkRanked ++ U.map mkUnranked).filter
        (fun e => e.rank.isNone)) = U.map mkUnranked := by
  rw [filter_append]
  have hA : ((rankSequential 0 S).map mkRanked).filter (fun e => e.rank.isNone) = [] := by
    refine filter_eq_nil_iff.mpr ?_
    intro e he
    rw [mem_map] at he
    obtain ⟨p, _, rfl⟩ := he
    simp [mkRanked]
  have hB : (U.map mkUnranked).filter (fun e => e.rank.isNone) = U.map mkUnranked := by
    refine filter_eq_self.mpr ?_
    intro e he
    rw [mem_map] at he
    obtain ⟨d, _, rfl⟩ := he
    simp [mkUnranked]
  rw [hA, hB, nil_append]

/-- When the ranked part is built from scored data only, an entry with a
null score has a null rank. -/
theorem rankBranch_score_none_rank_none (S U : List StudentData)
    (hS : ∀ d ∈ S, d.score.isSome) :
    ∀ e ∈ (rankSequential 0 S).map mkRanked ++ U.map mkUnranked,
      e.score = none → e.rank = none := by
  intro e he hnone
  rcases mem_append.mp he with hA | hB
  · rw [mem_map] at hA
    obtain ⟨p, hp, rfl⟩ := hA
    have hp1 : p.1 ∈ S := by
      have hm : p.1 ∈ (rankSequential 0 S).map Prod.fst := mem_map_of_mem _ hp
      rw [rankSequential_map_fst] at hm
      exact hm
    have hsome := hS p.1 hp1
    have hsc : (mkRanked p).score = p.1.score := rfl
    rw [hsc] at hnone
    rw [hnone] at hsome
    simp at hsome
  · rw [mem_map] at hB
    obtain ⟨d, _, rfl⟩ := hB
    rfl

/-- Entries without a rank only occur after every ranked entry. -/
theorem rankBranch_pairwise_nullAfter (S U : List StudentData) :
    (((rankSequential 0 S).map mkRanked ++ U.map mkUnranked)).Pairwise
      (fun e1 e2 => e1.rank = none → e2.rank = none) := by
  rw [pairwise_append]
  refine ⟨?_, ?_, ?_⟩
  · rw [pairwise_map]
    refine pairwise_of_forall_mem_list ?_
    intro p _ q _ habs
    simp [mkRanked] at habs
  · rw [pairwise_map]
    refine pairwise_of_forall_mem_list ?_
    intro p _ q _ _
    rfl
  · intro e1 _ e2 he2 _
    rw [mem_map] at he2
    obtain ⟨d, _, rfl⟩ := he2
    rfl

/-- Every entry of the ranked part of a competition ranking over scored
elements has a score and a rank. -/
theorem overallRankedMem {σ : Type} (score : σ → Option ℚ) (rank : σ → Option Nat)
    (f : σ × Option Nat → σ)
    (hfsc : ∀ p, score (f p) = score p.1) (hfr : ∀ p, rank (f p) = p.2)
    (sorted : List σ) (hall : ∀ x ∈ sorted, (score x).isSome) :
    ∀ e ∈ (competitionRank score none none 0 sorted).map f,
      (score e).isSome ∧ (rank e).isSome := by
  intro e he
  rw [mem_map] at he
  obtain ⟨p, hp, rfl⟩ := he
  constructor
  · rw [hfsc]
    have hp1 : p.1 ∈ sorted := by
      have hm : p.1 ∈ (competitionRank score none none 0 sorted).map Prod.fst :=
        mem_map_of_mem _ hp
      rw [competitionRank_map_fst] at hm
      exact hm
    exact hall _ hp1
  · rw [hfr]
    exact competitionRank_rank_isSome score sorted none none hall
      (fun hc => by simp at hc) 0 p hp

theorem mapExcept_ok_of_forall {α β ε : Type} {f : α → Except ε β} {g : α → β} :
    ∀ {l : List α}, (∀ x ∈ l, f x = .ok (g x)) → mapExcept f l = .ok (l.map g)
  | [], _ => rfl
  | x :: xs, h => by
    rw [mapExcept, h x (mem_cons_self x xs),
      mapExcept_ok_of_forall (fun y hy => h y (mem_cons_of_mem x hy))]
    rfl

/-- With no eligible categories there are no target completions. -/
theorem targetCompletionsOf_nil {a : Activity} (hcats : filteredCategoriesOf a = [])
    (s : Student) : targetCompletionsOf a s = [] := by
  refine filter_eq_nil_iff.mpr ?_
  intro c _
  simp [categoryIdsOf, hcats]

/-- All entries of the Point/Stage ranking branch over all-null data are
null-scored and unranked. -/
theorem rankBranchDesc_all_none {sd : List StudentData} (hnone : ∀ d ∈ sd, d.score = none) :
    ∀ e ∈ rankBranchDesc sd, e.score = none ∧ e.rank = none := by
  intro e he
  unfold rankBranchDesc at he
  rcases mem_append.mp he with hA | hB
  · exfalso
    rw [mem_map] at hA
    obtain ⟨p, hp, rfl⟩ := hA
    have hp1 : p.1 ∈ insertionSort (byKeyDesc (fun d : StudentData => numOf d.score))
        (sd.filter (fun d => d.score.isSome)) := by
      have hm : p.1 ∈ (rankSequential 0 _).map Prod.fst := mem_map_of_mem _ hp
      rw [rankSequential_map_fst] at hm
      exact hm
    rw [mem_insertionSort] at hp1
    have h2 := (mem_filter.mp hp1).2
    have h3 := hnone p.1 (mem_filter.mp hp1).1
    rw [h3] at h2
    simp at h2
  · rw [mem_map] at hB
    obtain ⟨d, hd, rfl⟩ := hB
    exact ⟨hnone d (mem_filter.mp hd).1, rfl⟩

/-- All entries of the Time ranking branch over all-null data are
null-scored and unranked. -/
theorem rankBranchTime_all_none {sd : List StudentData} (hnone : ∀ d ∈ sd, d.score = none) :
    ∀ e ∈ rankBranchTime sd, e.score = none ∧ e.rank = none := by
  intro e he
  unfold rankBranchTime at he
  rcases mem_append.mp he with hA | hB
  · exfalso
    rw [mem_map] at hA
    obtain ⟨p, hp, rfl⟩ := hA
    have hp1 : p.1 ∈ insertionSort (byKeyAsc (fun d : StudentData => numOf d.score))
        (sd.filter (fun d => d.score.isSome && decide (3 ≤ d.completions.length))) := by
      have hm : p.1 ∈ (rankSequential 0 _).map Prod.fst := mem_map_of_mem _ hp
      rw [rankSequential_map_fst] at hm
      exact hm
    rw [mem_insertionSort] at hp1
    have h2 := ((Bool.and_eq_true _ _).mp (mem_filter.mp hp1).2).1
    have h3 := hnone p.1 (mem_filter.mp hp1).1
    rw [h3] at h2
    simp at h2
  · rw [mem_map] at hB
    obtain ⟨d, hd, rfl⟩ := hB
    exact ⟨hnone d (mem_filter.mp hd).1, rfl⟩

/-- With no eligible categories, the per-student closure yields a null
score and no completions, without an error, for every game type. -/
theorem studentActivityData_empty {a : Activity} (hcats : filteredCategoriesOf a = [])
    (s : Student) :
    studentActivityData a s = .ok { studentId := s.id, score := none, completions := [] } := by
  have htcs := targetCompletionsOf_nil hcats s
  cases htype : a.gameType with
  | Point =>
    rw [studentActivityData_point htype]
    unfold pointStudentData pointCompletionsOf
    rw [hcats]
    rfl
  | Time =>
    rw [studentActivityData_time htype]
    unfold timeStudentData timeCompletionsOf
    rw [hcats]
    rfl
  | Stage =>
    rw [studentActivityData_stage htype]
    unfold stageStudentData
    rw [htcs]

/-- C1: under the competition policy of generateOverallExamRankings and
generateOverallActivityRankings, the first ranked student has rank 1,
equal consecutive scores share a rank, and the next distinct score gets
a rank equal to its 1-based position in the sorted order; in particular
scores 90, 90, 80 yield ranks 1, 1, 3. -/
theorem C1_competition_rank_sharing :
    (∀ students : List Student,
      (∀ h : 0 < ((generateOverallExamRankings students).1).length,
        (((generateOverallExamRankings students).1).get ⟨0, h⟩).overallExamRank = some 1) ∧
      (∀ (i : Nat) (h1 : i + 1 < ((generateOverallExamRankings students).1).length)
        (h0 : i < ((generateOverallExamRankings students).1).length),
        ((((generateOverallExamRankings students).1).get ⟨i + 1, h1⟩).overallExamScore =
            (((generateOverallExamRankings students).1).get ⟨i, h0⟩).overallExamScore →
          (((generateOverallExamRankings students).1).get ⟨i + 1, h1⟩).overallExamRank =
            (((generateOverallExamRankings students).1).get ⟨i, h0⟩).overallExamRank) ∧
        ((((generateOverallExamRankings students).1).get ⟨i + 1, h1⟩).overallExamScore ≠
            (((generateOverallExamRankings students).1).get ⟨i, h0⟩).overallExamScore →
          (((generateOverallExamRankings students).1).get ⟨i + 1, h1⟩).overallExamRank =
            some (i + 2)))) ∧
    (∀ students : List Student,
      (∀ h : 0 < ((generateOverallActivityRankings students).1).length,
        (((generateOverallActivityRankings students).1).get ⟨0, h⟩).overallActivityRank =
          some 1) ∧
      (∀ (i : Nat) (h1 : i + 1 < ((generateOverallActivityRankings students).1).length)
        (h0 : i < ((generateOverallActivityRankings students).1).length),
        ((((generateOverallActivityRankings students).1).get
              ⟨i + 1, h1⟩).overallActivityScore =
            (((generateOverallActivityRankings students).1).get ⟨i, h0⟩).overallActivityScore →
          (((generateOverallActivityRankings students).1).get ⟨i + 1, h1⟩).overallActivityRank =
            (((generateOverallActivityRankings students).1).get
              ⟨i, h0⟩).overallActivityRank) ∧
        ((((generateOverallActivityRankings students).1).get
              ⟨i + 1, h1⟩).overallActivityScore ≠
            (((generateOverallActivityRankings students).1).get ⟨i, h0⟩).overallActivityScore →
          (((generateOverallActivityRankings students).1).get ⟨i + 1, h1⟩).overallActivityRank =
            some (i + 2)))) ∧
    ((generateOverallExamRankings c1Students).1.map
        (fun e => (e.student.id, e.overallExamScore, e.overallExamRank)) =
      [(1, some 90, some 1), (2, some 90, some 1), (3, some 80, some 3)]) := by
  refine ⟨fun students => ?_, fun students => ?_, ?_⟩
  · refine competitionRanked_props
      (fun e : ExamRankedStudent => e.overallExamScore)
      (fun e : ExamRankedStudent => e.overallExamRank)
      (fun p : ExamRankedStudent × Option Nat => { p.1 with overallExamRank := p.2 })
      (fun p => rfl) (fun p => rfl) _ ?_ _ rfl
    intro x hx
    rw [mem_insertionSort] at hx
    exact (mem_filter.mp hx).2
  · refine competitionRanked_props
      (fun e : ActivityRankedStudent => e.overallActivityScore)
      (fun e : ActivityRankedStudent => e.overallActivityRank)
      (fun p : ActivityRankedStudent × Option Nat => { p.1 with overallActivityRank := p.2 })
      (fun p => rfl) (fun p => rfl) _ ?_ _ rfl
    intro x hx
    rw [mem_insertionSort] at hx
    exact (mem_filter.mp hx).2
  · with_unfolding_all rfl

/-- C2: under the sequential policy of generateActivityRankings, every
ranked entry has rank equal to its 1-based position, no two ranked
entries share a rank, the ranked prefix is sorted by score descending
(ascending for Time), and scores 90, 90, 80 yield ranks 1, 2, 3 in
stable input order. -/
theorem C2_sequential_rank_positions :
    (∀ (a : Activity) (students : List Student) (es : List ActivityRankEntry),
      generateActivityRankings a students = .ok es →
      (∀ (i : Nat) (h : i < es.length), ((es.get ⟨i, h⟩).rank).isSome →
        (es.get ⟨i, h⟩).rank = some (i + 1)) ∧
      (∀ (i j : Nat) (hi : i < es.length) (hj : j < es.length), i ≠ j →
        ((es.get ⟨i, hi⟩).rank).isSome → ((es.get ⟨j, hj⟩).rank).isSome →
        (es.get ⟨i, hi⟩).rank ≠ (es.get ⟨j, hj⟩).rank) ∧
      (a.gameType ≠ ActivityCategoryType.Time →
        es.Pairwise (fun e1 e2 => e1.rank.isSome → e2.rank.isSome →
          numOf e2.score ≤ numOf e1.score)) ∧
      (a.gameType = ActivityCategoryType.Time →
        es.Pairwise (fun e1 e2 => e1.rank.isSome → e2.rank.isSome →
          numOf e1.score ≤ numOf e2.score))) ∧
    (generateActivityRankings c2Activity c2Students).map
        (fun es => es.map (fun e => (e.studentId, e.score, e.rank))) =
      .ok [(1, some 90, some 1), (2, some 90, some 2), (3, some 80, some 3)] := by
  constructor
  · intro a students es hok
    obtain ⟨sd, hmap, hfa, hes⟩ := generateActivityRankings_ok hok
    subst hes
    have hpos : ∀ (i : Nat) (h : i < (rankActivityStudents a sd).length),
        (((rankActivityStudents a sd).get ⟨i, h⟩).rank).isSome →
        ((rankActivityStudents a sd).get ⟨i, h⟩).rank = some (i + 1) := by
      cases htype : a.gameType with
      | Time =>
        rw [rankActivityStudents_time htype]
        exact seqRanked_rank_pos _ _
      | Point =>
        rw [rankActivityStudents_point htype]
        exact seqRanked_rank_pos _ _
      | Stage =>
        rw [rankActivityStudents_stage htype]
        exact seqRanked_rank_pos _ _
    refine ⟨hpos, ?_, ?_, ?_⟩
    · intro i j hi hj hij hsi hsj hc
      have h1 := hpos i hi hsi
      have h2 := hpos j hj hsj
      rw [h1, h2] at hc
      have hinj : i + 1 = j + 1 := Option.some.inj hc
      exact hij (by omega)
    · intro hnt
      cases htype : a.gameType with
      | Time => exact absurd htype hnt
      | Point =>
        rw [rankActivityStudents_point htype]
        exact seqRanked_pairwise (fun o1 o2 => numOf o2 ≤ numOf o1) _ _
          (sorted_insertionSort (byKeyDesc (fun d : StudentData => numOf d.score)) _)
      | Stage =>
        rw [rankActivityStudents_stage htype]
        exact seqRanked_pairwise (fun o1 o2 => numOf o2 ≤ numOf o1) _ _
          (sorted_insertionSort (byKeyDesc (fun d : StudentData => numOf d.score)) _)
    · intro ht
      rw [rankActivityStudents_time ht]
      exact seqRanked_pairwise (fun o1 o2 => numOf o1 ≤ numOf o2) _ _
        (sorted_insertionSort (byKeyAsc (fun d : StudentData => numOf d.score)) _)
  · with_unfolding_all rfl

/-- Witness for C2 at the concrete 90/90/80 roster: position 1 of the
output carries rank 2. -/
theorem C2_witness :
    (c2Entries.get ⟨1, by with_unfolding_all decide⟩).rank = some 2 := by
  have hok : generateActivityRankings c2Activity c2Students = .ok c2Entries := by
    with_unfolding_all rfl
  have h := (C2_sequential_rank_positions.1 c2Activity c2Students c2Entries hok).1 1
    (by with_unfolding_all decide) (by with_unfolding_all decide)
  exact h

/-- C9: every ranking operation partitions its roster: the concatenation
of ranked and unranked output is a permutation of the input students
(overall exam and activity rankings), and a successful
generateActivityRankings run returns entries whose student ids permute
the roster ids. -/
theorem C9_ranking_partition :
    (∀ students : List Student,
      (((generateOverallExamRankings students).1 ++
          (generateOverallExamRankings students).2).map (fun e => e.student)) ~ students) ∧
    (∀ students : List Student,
      (((generateOverallActivityRankings students).1 ++
          (generateOverallActivityRankings students).2).map (fun e => e.student)) ~ students) ∧
    (∀ (a : Activity) (students : List Student) (es : List ActivityRankEntry),
      generateActivityRankings a students = .ok es →
      es.map (fun e => e.studentId) ~ students.map (fun s => s.id)) := by
  refine ⟨generateOverallExamRankings_perm, generateOverallActivityRankings_perm, ?_⟩
  intro a students es hok
  obtain ⟨sd, hmap, hfa, hes⟩ := generateActivityRankings_ok hok
  subst hes
  refine (rankActivityStudents_perm a sd).trans ?_
  have heq : sd.map (fun d => d.studentId) = students.map (fun s => s.id) :=
    forall₂_map_eq (hfa.flip) (fun d s hds => studentActivityData_studentId hds)
  rw [heq]

/-- C3 counterexample: generateActivityRankings does not sort its
unranked students by full name. With the roster in order Ben, Ana (ids
1, 2) and no completions, both students are unscored with a null rank,
and the output keeps them in roster order: the entry of Ben (id 1)
precedes the entry of Ana (id 2) although the full name of Ana is
strictly smaller, so the unscored students appear in strictly
descending full-name order, contradicting the claimed ascending
alphabetical order. -/
theorem C3_counterexample :
    generateActivityRankings c3Activity [c3Ben, c3Ana] = .ok
      [{ studentId := 1, score := none, completions := [], rank := none },
       { studentId := 2, score := none, completions := [], rank := none }] ∧
    c3Ben.id = 1 ∧ c3Ana.id = 2 ∧
    studentFullName c3Ana < studentFullName c3Ben := by
  refine ⟨by with_unfolding_all rfl, rfl, rfl, by with_unfolding_all decide⟩

/-- C3 amended: in every ranking operation unscored students receive a
null rank and are placed after all scored students; the overall
(competition-policy) rankings additionally sort their unranked students
by full name ascending, while generateActivityRankings keeps its
unranked students in roster order (a subsequence of the input id
order). -/
theorem C3_unscored_placement_amended :
    (∀ students : List Student,
      (∀ e ∈ (generateOverallExamRankings students).1,
        e.overallExamScore.isSome ∧ e.overallExamRank.isSome) ∧
      (∀ e ∈ (generateOverallExamRankings students).2,
        e.overallExamScore = none ∧ e.overallExamRank = none) ∧
      ((generateOverallExamRankings students).2).Pairwise
        (fun e1 e2 => studentFullName e1.student ≤ studentFullName e2.student)) ∧
    (∀ students : List Student,
      (∀ e ∈ (generateOverallActivityRankings students).1,
        e.overallActivityScore.isSome ∧ e.overallActivityRank.isSome) ∧
      (∀ e ∈ (generateOverallActivityRankings students).2,
        e.overallActivityScore = none ∧ e.overallActivityRank = none) ∧
      ((generateOverallActivityRankings students).2).Pairwise
        (fun e1 e2 => studentFullName e1.student ≤ studentFullName e2.student)) ∧
    (∀ (a : Activity) (students : List Student) (es : List ActivityRankEntry),
      generateActivityRankings a students = .ok es →
      (∀ e ∈ es, e.score = none → e.rank = none) ∧
      es.Pairwise (fun e1 e2 => e1.rank = none → e2.rank = none) ∧
      ((es.filter (fun e => e.rank.isNone)).map (fun e => e.studentId)) <+
        students.map (fun s => s.id)) := by
  refine ⟨fun students => ⟨?_, ?_, ?_⟩, fun students => ⟨?_, ?_, ?_⟩, ?_⟩
  · rw [generateOverallExamRankings_fst]
    refine overallRankedMem
      (fun e : ExamRankedStudent => e.overallExamScore)
      (fun e : ExamRankedStudent => e.overallExamRank)
      (fun p : ExamRankedStudent × Option Nat => { p.1 with overallExamRank := p.2 })
      (fun p => rfl) (fun p => rfl) _ ?_
    intro x hx
    rw [mem_insertionSort] at hx
    exact (mem_filter.mp hx).2
  · rw [generateOverallExamRankings_snd]
    intro e he
    rw [mem_map] at he
    obtain ⟨x, hx, rfl⟩ := he
    rw [mem_insertionSort] at hx
    have hn := (mem_filter.mp hx).2
    refine ⟨?_, rfl⟩
    have hsc : ({ x with overallExamRank := none } : ExamRankedStudent).overallExamScore =
        x.overallExamScore := rfl
    rw [hsc]
    exact Option.isNone_iff_eq_none.mp hn
  · rw [generateOverallExamRankings_snd, pairwise_map]
    have hs := sorted_insertionSort
      (byKeyAsc (fun e : ExamRankedStudent => studentFullName e.student))
      ((students.map transformExamStudent).filter (fun e => e.overallExamScore.isNone))
    exact hs.imp (fun h => h)
  · rw [generateOverallActivityRankings_fst]
    refine overallRankedMem
      (fun e : ActivityRankedStudent => e.overallActivityScore)
      (fun e : ActivityRankedStudent => e.overallActivityRank)
      (fun p : ActivityRankedStudent × Option Nat => { p.1 with overallActivityRank := p.2 })
      (fun p => rfl) (fun p => rfl) _ ?_
    intro x hx
    rw [mem_insertionSort] at hx
    exact (mem_filter.mp hx).2
  · rw [generateOverallActivityRankings_snd]
    intro e he
    rw [mem_map] at he
    obtain ⟨x, hx, rfl⟩ := he
    rw [mem_insertionSort] at hx
    have hn := (mem_filter.mp hx).2
    refine ⟨?_, rfl⟩
    have hsc : ({ x with overallActivityRank := none } :
        ActivityRankedStudent).overallActivityScore = x.overallActivityScore := rfl
    rw [hsc]
    exact Option.isNone_iff_eq_none.mp hn
  · rw [generateOverallActivityRankings_snd, pairwise_map]
    have hs := sorted_insertionSort
      (byKeyAsc (fun e : ActivityRankedStudent => studentFullName e.student))
      ((students.map transformActivityStudent).filter
        (fun e => e.overallActivityScore.isNone))
    exact hs.imp (fun h => h)
  · intro a students es hok
    obtain ⟨sd, hmap, hfa, hes⟩ := generateActivityRankings_ok hok
    subst hes
    have hids : sd.map (fun d => d.studentId) = students.map (fun s => s.id) :=
      forall₂_map_eq (hfa.flip) (fun d s hds => studentActivityData_studentId hds)
    have hbranchfacts : ∀ (p : StudentData → Bool)
        (r : StudentData → StudentData → Prop) (inst : DecidableRel r)
        (hp : ∀ d ∈ sd.filter p, d.score.isSome),
        (∀ e ∈ (rankSequential 0 (insertionSort r (sd.filter p))).map mkRanked ++
            (sd.filter (fun d => !p d)).map mkUnranked,
          e.score = none → e.rank = none) ∧
        (((rankSequential 0 (insertionSort r (sd.filter p))).map mkRanked ++
            (sd.filter (fun d => !p d)).map mkUnranked)).Pairwise
          (fun e1 e2 => e1.rank = none → e2.rank = none) ∧
        (((((rankSequential 0 (insertionSort r (sd.filter p))).map mkRanked ++
              (sd.filter (fun d => !p d)).map mkUnranked).filter
            (fun e => e.rank.isNone)).map (fun e => e.studentId)) <+
          students.map (fun s => s.id)) := by
      intro p r inst hp
      refine ⟨?_, rankBranch_pairwise_nullAfter _ _, ?_⟩
      · refine rankBranch_score_none_rank_none _ _ ?_
        intro d hd
        rw [mem_insertionSort] at hd
        exact hp d hd
      · rw [rankBranch_filter_unranked, map_map]
        have hcomp : ((fun e : ActivityRankEntry => e.studentId) ∘ mkUnranked) =
            (fun d : StudentData => d.studentId) := rfl
        rw [hcomp, ← hids]
        exact (filter_sublist sd).map _
    cases htype : a.gameType with
    | Time =>
      rw [rankActivityStudents_time htype]
      unfold rankBranchTime
      have hfe : sd.filter (fun d => d.score.isNone || decide (d.completions.length < 3)) =
          sd.filter (fun d => !(d.score.isSome && decide (3 ≤ d.completions.length))) :=
        filter_congr (fun d _ => timeIncomplete_eq_not d)
      rw [hfe]
      refine hbranchfacts _ _ inferInstance ?_
      intro d hd
      have := (mem_filter.mp hd).2
      exact (Bool.and_eq_true _ _ |>.mp this).1
    | Point =>
      rw [rankActivityStudents_point htype]
      unfold rankBranchDesc
      have hfe : sd.filter (fun d => d.score.isNone) =
          sd.filter (fun d => !d.score.isSome) :=
        filter_congr (fun d _ => isNone_eq_not_isSome d.score)
      rw [hfe]
      refine hbranchfacts _ _ inferInstance ?_
      intro d hd
      exact (mem_filter.mp hd).2
    | Stage =>
      rw [rankActivityStudents_stage htype]
      unfold rankBranchDesc
      have hfe : sd.filter (fun d => d.score.isNone) =
          sd.filter (fun d => !d.score.isSome) :=
        filter_congr (fun d _ => isNone_eq_not_isSome d.score)
      rw [hfe]
      refine hbranchfacts _ _ inferInstance ?_
      intro d hd
      exact (mem_filter.mp hd).2

/-- Witness for the amended C3: at the Ben/Ana roster the unranked part
of the overall exam ranking is name-sorted, and the unranked entries of
the activity ranking keep roster id order. -/
theorem C3_amended_witness :
    ((generateOverallExamRankings [c3Ben, c3Ana]).2).Pairwise
      (fun e1 e2 => studentFullName e1.student ≤ studentFullName e2.student) ∧
    ((([{ studentId := 1, score := none, completions := [], rank := none },
        { studentId := 2, score := none, completions := [], rank := none }] :
          List ActivityRankEntry).filter
        (fun e => e.rank.isNone)).map (fun e => e.studentId)) <+
      [c3Ben, c3Ana].map (fun s => s.id) := by
  constructor
  · exact (C3_unscored_placement_amended.1 [c3Ben, c3Ana]).2.2
  · exact (C3_unscored_placement_amended.2.2 c3Activity [c3Ben, c3Ana] _
      (by with_unfolding_all rfl)).2.2

/-- C6: for a Time activity ranked by generateActivityRankings, an entry
is ranked exactly when it has a numeric score and at least 3 canonical
completions; a student with 2 of 3 completions and average time 15 is
unranked. -/
theorem C6_time_three_completion_gate :
    (∀ (a : Activity) (students : List Student) (es : List ActivityRankEntry),
      a.gameType = ActivityCategoryType.Time →
      generateActivityRankings a students = .ok es →
      ∀ e ∈ es, e.rank.isSome ↔ (e.score.isSome ∧ 3 ≤ e.completions.length)) ∧
    generateActivityRankings c6Activity [c6Student] = .ok [c6Entry] := by
  constructor
  · intro a students es htype hok e hmem
    obtain ⟨sd, hmap, hfa, hes⟩ := generateActivityRankings_ok hok
    subst hes
    rw [rankActivityStudents_time htype] at hmem
    unfold rankBranchTime at hmem
    rcases mem_append.mp hmem with hA | hB
    · rw [mem_map] at hA
      obtain ⟨p, hp, rfl⟩ := hA
      have hp1 : p.1 ∈ insertionSort (byKeyAsc (fun d : StudentData => numOf d.score))
          (sd.filter (fun d => d.score.isSome && decide (3 ≤ d.completions.length))) := by
        have hm : p.1 ∈ (rankSequential 0 _).map Prod.fst := mem_map_of_mem _ hp
        rw [rankSequential_map_fst] at hm
        exact hm
      rw [mem_insertionSort] at hp1
      have hcond := (mem_filter.mp hp1).2
      have hsplit := (Bool.and_eq_true _ _).mp hcond
      constructor
      · intro _
        exact ⟨hsplit.1, of_decide_eq_true hsplit.2⟩
      · intro _
        rfl
    · rw [mem_map] at hB
      obtain ⟨d, hd, rfl⟩ := hB
      have hcond := (mem_filter.mp hd).2
      constructor
      · intro habs
        simp [mkUnranked] at habs
      · intro hrhs
        exfalso
        rcases (Bool.or_eq_true _ _).mp hcond with hn | hlt
        · have hsc : (mkUnranked d).score = d.score := rfl
          have := hrhs.1
          rw [hsc] at this
          rw [Option.isNone_iff_eq_none.mp hn] at this
          simp at this
        · have hlen : d.completions.length < 3 := of_decide_eq_true hlt
          have hcomp : (mkUnranked d).completions = d.completions := rfl
          have h3 := hrhs.2
          rw [hcomp] at h3
          omega
  · with_unfolding_all rfl

/-- Witness for C6: the entry of the 2-of-3 student has no rank even
though its score is the numeric average 15. -/
theorem C6_witness :
    ¬ (c6Entry.rank.isSome = true) := by
  intro habs
  have hiff := C6_time_three_completion_gate.1 c6Activity [c6Student] [c6Entry] rfl
    (by with_unfolding_all rfl) c6Entry (mem_cons_self _ _)
  have hcons := hiff.mp habs
  have h3 : 3 ≤ c6Entry.completions.length := hcons.2
  have hlen : c6Entry.completions.length = 2 := by with_unfolding_all rfl
  omega

/-- C8: when the deduplicated category set of an activity is empty, both
scoring operations succeed (no error) and produce null scores, for every
game type. -/
theorem C8_empty_categories_safe :
    (∀ (a : Activity) (students : List Student),
      filteredCategoriesOf a = [] →
      ∃ es : List ActivityRankEntry,
        generateActivityRankings a students = .ok es ∧
        ∀ e ∈ es, e.score = none ∧ e.rank = none) ∧
    (∀ (a : Activity) (s : Student),
      filteredCategoriesOf a = [] →
      ∃ out : ActivityWithCompletions,
        generateActivityWithCompletions a s = .ok out ∧ out.score = none) := by
  constructor
  · intro a students hcats
    have hdata : ∀ s ∈ students,
        studentActivityData a s =
          .ok ({ studentId := s.id, score := none, completions := [] } : StudentData) :=
      fun s _ => studentActivityData_empty hcats s
    have hmap : mapExcept (studentActivityData a) students =
        .ok (students.map
          (fun s => ({ studentId := s.id, score := none, completions := [] } : StudentData))) :=
      mapExcept_ok_of_forall hdata
    refine ⟨rankActivityStudents a
      (students.map
        (fun s => ({ studentId := s.id, score := none, completions := [] } : StudentData))),
      ?_, ?_⟩
    · unfold generateActivityRankings
      rw [hmap]
      rfl
    · have hnone : ∀ d ∈ students.map
          (fun s => ({ studentId := s.id, score := none, completions := [] } : StudentData)),
          d.score = none := by
        intro d hd
        rw [mem_map] at hd
        obtain ⟨s, _, rfl⟩ := hd
        rfl
      cases htype : a.gameType with
      | Time =>
        rw [rankActivityStudents_time htype]
        exact rankBranchTime_all_none hnone
      | Point =>
        rw [rankActivityStudents_point htype]
        exact rankBranchDesc_all_none hnone
      | Stage =>
        rw [rankActivityStudents_stage htype]
        exact rankBranchDesc_all_none hnone
  · intro a s hcats
    have htcs := targetCompletionsOf_nil hcats s
    cases htype : a.gameType with
    | Point =>
      refine ⟨{ categories := [], score := none }, ?_, rfl⟩
      unfold generateActivityWithCompletions
      rw [htype, hcats]
      rfl
    | Time =>
      refine ⟨{ categories := [], score := none }, ?_, rfl⟩
      unfold generateActivityWithCompletions
      rw [htype, hcats]
      rfl
    | Stage =>
      refine ⟨{ categories := [], score := none }, ?_, rfl⟩
      unfold generateActivityWithCompletions
      rw [htype, htcs, hcats]
      rfl

/-- Witness for C8 at a StageBased activity with no categories. -/
theorem C8_witness :
    (∃ es : List ActivityRankEntry,
      generateActivityRankings c8Activity [c3Ben] = .ok es ∧
      ∀ e ∈ es, e.score = none ∧ e.rank = none) ∧
    (∃ out : ActivityWithCompletions,
      generateActivityWithCompletions c8Activity c3Ben = .ok out ∧ out.score = none) :=
  ⟨C8_empty_categories_safe.1 c8Activity [c3Ben] (by with_unfolding_all rfl),
   C8_empty_categories_safe.2 c8Activity c3Ben (by with_unfolding_all rfl)⟩

/-- C4: for a Point activity, the canonical completion of a category is
one with maximal (null-coerced) score, ties broken by minimal completion
time; the unit score is null exactly when the student has no completion
in any eligible category; and the example roster with best scores 80 at
level 1 and 60 at level 3 and no level-2 completion scores 140. -/
theorem C4_point_best_completion :
    (∀ (tcs : List ActivityCompletion) (cat : ActivityCategory) (h : ActivityCompletion),
      (pointCategoryList tcs cat).head? = some h →
      h ∈ tcs.filter (fun com => com.activityCategory.id == cat.id) ∧
      (∀ x ∈ tcs.filter (fun com => com.activityCategory.id == cat.id),
        numOf x.score ≤ numOf h.score) ∧
      (∀ x ∈ tcs.filter (fun com => com.activityCategory.id == cat.id),
        numOf x.score = numOf h.score →
        h.timeCompletedSeconds ≤ x.timeCompletedSeconds)) ∧
    (∀ (a : Activity) (s : Student) (d : StudentData),
      a.gameType = ActivityCategoryType.Point →
      studentActivityData a s = .ok d →
      (d.score = none ↔ targetCompletionsOf a s = [])) ∧
    ((generateActivityRankings c4Activity [c4Student]).map
        (fun es => es.map (fun e => (e.studentId, e.score, e.rank))) =
      .ok [(9, some 140, some 1)]) := by
  refine ⟨?_, ?_, by with_unfolding_all rfl⟩
  · intro tcs cat h hh
    rcases hlist : pointCategoryList tcs cat with _ | ⟨h', t⟩
    · rw [hlist] at hh
      cases hh
    · rw [hlist] at hh
      have hh' : h' = h := by
        simpa using hh
      subst hh'
    -- the two sort layers
      have hmemh : h' ∈ tcs.filter (fun com => com.activityCategory.id == cat.id) := by
        have h1 : h' ∈ pointCategoryList tcs cat := by
          rw [hlist]
          exact mem_cons_self _ _
        unfold pointCategoryList at h1
        rw [mem_insertionSort, mem_insertionSort] at h1
        exact h1
      refine ⟨hmemh, ?_, ?_⟩
      · intro x hx
        have hx1 : x ∈ insertionSort
            (byKeyAsc (fun com : ActivityCompletion => com.timeCompletedSeconds))
            (tcs.filter (fun com => com.activityCategory.id == cat.id)) := by
          rw [mem_insertionSort]
          exact hx
        exact head_insertionSort_byKeyDesc_max
          (fun com : ActivityCompletion => numOf com.score) hlist x hx1
      · intro x hx hscore
        have hx1 : x ∈ insertionSort
            (byKeyAsc (fun com : ActivityCompletion => com.timeCompletedSeconds))
            (tcs.filter (fun com => com.activityCategory.id == cat.id)) := by
          rw [mem_insertionSort]
          exact hx
        exact head_insertionSort_byKeyDesc_tie
          (fun com : ActivityCompletion => numOf com.score)
          (fun com : ActivityCompletion => com.timeCompletedSeconds)
          (sorted_insertionSort
            (byKeyAsc (fun com : ActivityCompletion => com.timeCompletedSeconds)) _)
          hlist x hx1 hscore
  · intro a s d htype hok
    rw [studentActivityData_point htype] at hok
    cases hok
    unfold pointStudentData
    constructor
    · intro hnone
      by_contra htcs
      rcases hne : targetCompletionsOf a s with _ | ⟨c, rest⟩
      · exact htcs hne
      · have hcmem : c ∈ targetCompletionsOf a s := by
          rw [hne]
          exact mem_cons_self _ _
        have hcontains := (mem_filter.mp hcmem).2
        have hex : ∃ cat ∈ filteredCategoriesOf a, cat.id = c.activityCategory.id := by
          have hexb := List.contains_iff_exists_mem_beq.mp hcontains
          obtain ⟨b, hb, hbeq⟩ := hexb
          rw [categoryIdsOf, mem_map] at hb
          obtain ⟨cat, hcat, rfl⟩ := hb
          exact ⟨cat, hcat, (beq_iff_eq.mp hbeq).symm⟩
        obtain ⟨cat, hcatmem, hcatid⟩ := hex
        have hcfil : c ∈ (targetCompletionsOf a s).filter
            (fun com => com.activityCategory.id == cat.id) := by
          rw [mem_filter]
          exact ⟨hcmem, beq_iff_eq.mpr hcatid.symm⟩
        have hnonempty : pointCategoryList (targetCompletionsOf a s) cat ≠ [] := by
          intro habs
          unfold pointCategoryList at habs
          rw [insertionSort_eq_nil_iff, insertionSort_eq_nil_iff] at habs
          rw [habs] at hcfil
          simp at hcfil
        have hhead : ∃ hd, (pointCategoryList (targetCompletionsOf a s) cat).head? = some hd := by
          rcases hli : pointCategoryList (targetCompletionsOf a s) cat with _ | ⟨hd, tl⟩
          · exact absurd hli hnonempty
          · exact ⟨hd, rfl⟩
        obtain ⟨hd, hhd⟩ := hhead
        have hmemfm : hd ∈ pointCompletionsOf a (targetCompletionsOf a s) := by
          rw [pointCompletionsOf, mem_filterMap]
          exact ⟨cat, hcatmem, hhd⟩
        have hfmne : pointCompletionsOf a (targetCompletionsOf a s) ≠ [] := by
          intro habs
          rw [habs] at hmemfm
          simp at hmemfm
        have hempty : (pointCompletionsOf a (targetCompletionsOf a s)).isEmpty = false := by
          rcases hpc : pointCompletionsOf a (targetCompletionsOf a s) with _ | _
          · exact absurd hpc hfmne
          · rfl
        simp only [hempty] at hnone
        cases hnone
    · intro htcs
      have hfm : pointCompletionsOf a (targetCompletionsOf a s) = [] := by
        rw [pointCompletionsOf]
        refine filterMap_eq_nil_iff.mpr ?_
        intro cat hcat
        unfold pointCategoryList
        rw [htcs]
        rfl
      simp only [hfm]
      rfl

/-- Witness for C4: at level 1 of the example, the canonical completion
is the score-80 attempt; the slower-but-better attempt wins over the
faster score-70 one, and the example student has a non-null score. -/
theorem C4_witness :
    numOf c4Com70.score ≤ numOf c4Com80.score ∧
    ¬ (({ studentId := 9, score := some 140,
          completions := [c4Com80, c4Com60] } : StudentData).score = none) := by
  constructor
  · have hsel := C4_point_best_completion.1 (targetCompletionsOf c4Activity c4Student)
      ((c4Activity.categories).get ⟨0, by with_unfolding_all decide⟩) c4Com80
      (by with_unfolding_all rfl)
    exact hsel.2.1 c4Com70 (by with_unfolding_all decide)
  · have hiff := C4_point_best_completion.2.1 c4Activity c4Student
      { studentId := 9, score := some 140, completions := [c4Com80, c4Com60] }
      rfl (by with_unfolding_all rfl)
    intro habs
    have hempty := hiff.mp habs
    have h70 : c4Com70 ∈ targetCompletionsOf c4Activity c4Student := by
      with_unfolding_all decide
    rw [hempty] at h70
    simp at h70

/-- Folding reciprocal additions equals the starting value plus the sum
of reciprocals. -/
theorem foldl_add_inv (L : List ℚ) :
    ∀ c : ℚ, L.foldl (fun t a => t + 1 / a) c = c + (L.map (fun a => 1 / a)).sum := by
  induction L with
  | nil => intro c; simp
  | cons a L ih =>
    intro c
    rw [foldl_cons, ih, map_cons, sum_cons]
    ring

/-- The total time score decomposes into per-activity contributions. -/
theorem totalTimeScore_eq_sum (timeComs : List ActivityCompletion) :
    totalTimeScore timeComs =
      ((timeActivityIds timeComs).map (timeContribution timeComs)).sum := by
  unfold totalTimeScore
  rw [foldl_add_inv, zero_add]
  generalize timeActivityIds timeComs = ids
  induction ids with
  | nil => rfl
  | cons aid rest ih =>
    rw [map_cons, map_cons, sum_cons]
    cases havg : timeActivityAvg timeComs aid with
    | none =>
      have hc : timeContribution timeComs aid = 0 := by
        unfold timeContribution
        rw [havg]
      rw [hc, zero_add, ← ih]
      simp
    | some q =>
      have hc : timeContribution timeComs aid = if q = 0 then 0 else 1 / q := by
        unfold timeContribution
        rw [havg]
      rw [hc]
      by_cases hq : q = 0
      · rw [if_pos hq, zero_add, ← ih]
        simp [hq]
      · rw [if_neg hq, ← ih]
        simp [hq]

/-- C5 counterexample: a student with deduplicated completions in all
three tiers of one TimeBased activity, tier times 10, 20 and 30 seconds
(average 20) but completion score fields equal to 1, receives overall
activity score 1, not the reciprocal 1/20 = 0.05 of the average time:
generateOverallActivityRankings sums reciprocals of averages of the
`score` field, not of `timeCompletedSeconds`. -/
theorem C5_counterexample :
    overallActivityScoreOf c5Student = some 1 ∧
    (1 : ℚ) ≠ 1 / ((10 + 20 + 30) / 3) := by
  constructor
  · with_unfolding_all rfl
  · with_unfolding_all decide

/-- C5 amended: in the overall activity score, a TimeBased activity
contributes the reciprocal of the average of the score fields of its
deduplicated completions when completions exist in exactly three
distinct tiers and that average is non-zero, and contributes 0
otherwise; with score fields 10, 20, 30 the overall score is 1/20, and
with only two tiers completed it is 0. -/
theorem C5_time_contribution_amended :
    (∀ timeComs : List ActivityCompletion,
      totalTimeScore timeComs =
        ((timeActivityIds timeComs).map (timeContribution timeComs)).sum) ∧
    overallActivityScoreOf c5ScoreAsTime = some (1 / 20) ∧
    overallActivityScoreOf c5TwoTiers = some 0 := by
  refine ⟨totalTimeScore_eq_sum, ?_, ?_⟩
  · with_unfolding_all rfl
  · with_unfolding_all rfl

/-- C7 counterexample: the dedup in the detailed exam performance
(lines 278-281) keeps the first completion per exam id in input array
order, not the one with the latest submittedAt. With attempts (score 70,
t=1000) then (score 90, t=2000) in that input order, the kept completion
is the earlier score-70 one even though a later submission exists, and
the passed count is 0 although the latest attempt (score 90, passing
threshold 75) passed. -/
theorem C7_counterexample :
    detailedExamCompletions c7Student = [c7Com70] ∧
    c7Com90 ∈ c7Student.examCompletions ∧
    c7Com90.exam.id = c7Com70.exam.id ∧
    c7Com70.submittedAt < c7Com90.submittedAt ∧
    examsPassedCount c7Student = 0 ∧
    c7Com90.exam.passingPoints ≤ c7Com90.score := by
  refine ⟨by with_unfolding_all rfl, ?_, rfl, by with_unfolding_all decide,
    by with_unfolding_all rfl, by with_unfolding_all decide⟩
  with_unfolding_all decide

/-- C7 amended: the overall exam ranking keeps exactly one completion
per exam id, namely the first, in submittedAt-descending order, of the
completions of that exam id (so the latest submission, as the claim
states); the dedup of the detailed exam performance counts instead
keeps the first completion per exam id in input array order, which need
not be the latest. On the example, the ranking dedup keeps the
11:00/score-90 completion. -/
theorem C7_exam_dedup_amended :
    (∀ (s : Student) (c : ExamCompletion), c ∈ filteredExamCompletions s →
      c ∈ s.examCompletions ∧
      ∀ d ∈ s.examCompletions, d.exam.id = c.exam.id → d.submittedAt ≤ c.submittedAt) ∧
    (∀ (s : Student) (b : Nat),
      (filteredExamCompletions s).filter (fun c => c.exam.id == b) =
        ((insertionSort (byKeyDesc (fun c : ExamCompletion => c.submittedAt))
            s.examCompletions).filter (fun c => c.exam.id == b)).take 1) ∧
    (∀ (s : Student) (b : Nat),
      (detailedExamCompletions s).filter (fun c => c.exam.id == b) =
        (s.examCompletions.filter (fun c => c.exam.id == b)).take 1) ∧
    filteredExamCompletions c7Student = [c7Com90] := by
  refine ⟨?_, ?_, ?_, by with_unfolding_all rfl⟩
  · intro s c hc
    have hcs : c ∈ insertionSort (byKeyDesc (fun x : ExamCompletion => x.submittedAt))
        s.examCompletions := mem_of_mem_dedupByKey hc
    have hcraw : c ∈ s.examCompletions := by
      rw [mem_insertionSort] at hcs
      exact hcs
    refine ⟨hcraw, ?_⟩
    intro d hd hid
    -- c is the head of the submittedAt-descending completions of its own exam id
    have hfil : c ∈ (filteredExamCompletions s).filter
        (fun x => x.exam.id == c.exam.id) := by
      rw [mem_filter]
      exact ⟨hc, beq_self_eq_true _⟩
    rw [filteredExamCompletions, dedupByKey_filter_key] at hfil
    set L := (insertionSort (byKeyDesc (fun x : ExamCompletion => x.submittedAt))
      s.examCompletions).filter (fun x => x.exam.id == c.exam.id) with hL
    have hhead : ∃ t, L = c :: t := by
      rcases hLc : L with _ | ⟨x, xs⟩
      · rw [hLc] at hfil
        simp at hfil
      · rw [hLc] at hfil
        simp only [take_succ_cons, take_zero, mem_singleton] at hfil
        subst hfil
        exact ⟨xs, rfl⟩
    obtain ⟨t, ht⟩ := hhead
    have hsorted : L.Pairwise
        (byKeyDesc (fun x : ExamCompletion => x.submittedAt)) := by
      rw [hL]
      exact Pairwise.sublist (filter_sublist _)
        (sorted_insertionSort (byKeyDesc (fun x : ExamCompletion => x.submittedAt))
          s.examCompletions)
    have hdL : d ∈ L := by
      rw [hL, mem_filter, mem_insertionSort]
      exact ⟨hd, beq_iff_eq.mpr hid⟩
    rw [ht] at hsorted hdL
    rcases mem_cons.mp hdL with rfl | hdt
    · exact le_refl _
    · exact rel_of_sorted_cons hsorted d hdt
  · intro s b
    rw [filteredExamCompletions, dedupByKey_filter_key]
  · intro s b
    rw [detailedExamCompletions, dedupByKey_filter_key]

/-- Witness for the amended C7: applied to the two-attempt student, the
kept completion of the ranking dedup is the later score-90 one and it
dominates the earlier attempt. -/
theorem C7_amended_witness :
    c7Com70.submittedAt ≤ c7Com90.submittedAt ∧
    (detailedExamCompletions c7Student).filter (fun c => c.exam.id == 5) =
      (c7Student.examCompletions.filter (fun c => c.exam.id == 5)).take 1 := by
  constructor
  · exact ((C7_exam_dedup_amended.1 c7Student c7Com90
      (by with_unfolding_all decide)).2 c7Com70 (by with_unfolding_all decide) rfl)
  · exact C7_exam_dedup_amended.2.2.1 c7Student 5

/-- C10 counterexample: the aggregation operations mutate their input
entity graphs. `Array.prototype.sort` sorts in place, so after
generateActivityRankings the input activity category array is reordered
(updatedAt descending), and after generateOverallExamRankings the input
student exam completion array is reordered (submittedAt descending):
the element order of the inputs is not unchanged. -/
theorem C10_counterexample :
    categoriesAfterActivityRankings c10Activity ≠ c10Activity.categories ∧
    examCompletionsAfterOverallExamRankings c7Student ≠ c7Student.examCompletions := by
  constructor
  · with_unfolding_all decide
  · with_unfolding_all decide

/-- C10 amended: the operations build new derived records and neither
add nor remove elements of the input arrays, but they do reorder those
arrays in place: the post-run contents are permutations of the inputs
(categories stably sorted by updatedAt descending, completion arrays by
submittedAt descending). -/
theorem C10_mutation_amended :
    (∀ a : Activity, categoriesAfterActivityRankings a ~ a.categories) ∧
    (∀ s : Student, examCompletionsAfterOverallExamRankings s ~ s.examCompletions) ∧
    (∀ s : Student,
      activityCompletionsAfterOverallActivityRankings s ~ s.activityCompletions) :=
  ⟨fun _ => perm_insertionSort _ _, fun _ => perm_insertionSort _ _,
   fun _ => perm_insertionSort _ _⟩

/-- Witness for C9 at the concrete three-student roster. -/
theorem C9_witness :
    (c2Entries.map (fun e => e.studentId)) ~ (c2Students.map (fun s => s.id)) := by
  have hok : generateActivityRankings c2Activity c2Students = .ok c2Entries := by
    with_unfolding_all rfl
  exact C9_ranking_partition.2.2 c2Activity c2Students c2Entries hok

/-- Witness for C1 at the concrete roster: the theorem evaluated at the
90/90/80 roster gives rank 1 at position 0 and rank 3 at position 2. -/
theorem C1_witness :
    (((generateOverallExamRankings c1Students).1).get
        ⟨0, by with_unfolding_all decide⟩).overallExamRank = some 1 ∧
    (((generateOverallExamRankings c1Students).1).get
        ⟨2, by with_unfolding_all decide⟩).overallExamRank = some 3 := by
  constructor
  · exact (C1_competition_rank_sharing.1 c1Students).1 (by with_unfolding_all decide)
  · exact ((C1_competition_rank_sharing.1 c1Students).2 1
      (by with_unfolding_all decide) (by with_unfolding_all decide)).2
      (by with_unfolding_all decide)

end MathGrellic
